import Mathlib

/-! sniproxy: the TLS ClientHello server-name parser (`src/tls.c`).

A shallow embedding of `parse_tls_header` and `parse_server_name_extension`.

* The input is a memory `data : Nat → Byte` indexed by the offset from the pointer `data`,
  together with the `int data_len` the caller passes.  Memory is total, so that a read at or
  beyond `data_len` is a definite event that the model records rather than hides.
* A cursor `p` of the source is modelled by its offset `p - data`, a natural number: every
  `len` added to a cursor is assembled from `uint8_t` values and is non-negative.  A cursor
  that is dereferenced or advanced is below `data_len`, and one advance adds at most
  `4 + 65535`, so no offset leaves the range of `ptrdiff_t`; the only narrowing assignment,
  `uint16_t tls_length`, is reduced modulo `2^16`.
* The static array `server_name` is a function `Nat → Byte`; it is an input of a call (its
  contents before) and part of the outcome (its contents after).
* Every call yields an `Outcome`: the returned pointer (NULL or `server_name`), the static
  array afterwards, the offsets of the input bytes read, the indices of `server_name` written,
  and the diagnostics printed on `stderr`, each in program order.
* The two `while (1)` loops are recursive functions on a fuel argument; `none` stands for
  "the fuel ran out", and the callers pass `data_len` (resp. `buf_len`) as fuel.
-/

namespace Sniproxy

/-- A `uint8_t`. -/
abbrev Byte := Fin 256

/-- Line 11: `#define SERVER_NAME_LEN 256`. -/
def SERVER_NAME_LEN : Nat := 256
/-- Line 12: `#define TLS_HEADER_LEN 5`. -/
def TLS_HEADER_LEN : Nat := 5
/-- Line 13: `#define TLS_HANDSHAKE_CONTENT_TYPE 0x16`. -/
def TLS_HANDSHAKE_CONTENT_TYPE : Byte := 0x16
/-- Line 14: `#define TLS_HANDSHAKE_TYPE_CLIENT_HELLO 0x01`. -/
def TLS_HANDSHAKE_TYPE_CLIENT_HELLO : Byte := 0x01

/-- The messages written to `stderr`; those that print `__LINE__` carry the line number. -/
inductive Diag where
  /-- Line 51: "Did not receive TLS handshake". -/
  | not_handshake
  /-- Line 58: "Receved pre SSL 3.0 handshake". -/
  | pre_ssl3
  /-- Line 63: "Receved SSL 3.0 handshake". -/
  | ssl3
  /-- Lines 69, 79, 97, 104, 111, 119, 136, 155: "Did not receive complete TLS handshake header: %d". -/
  | incomplete_header (line : Nat)
  /-- Line 84: "Not a client hello". -/
  | not_client_hello
  /-- Line 128: "No extensions present in TLS handshake header: %d". -/
  | no_extensions (line : Nat)
  /-- Line 144: "No more TLS handshake extensions: %d". -/
  | no_more_extensions (line : Nat)
  /-- Lines 174, 183, 191, 197: "Incomplete server name extension: %d". -/
  | incomplete_server_name (line : Nat)
  /-- Line 201: "Server name is too long". -/
  | name_too_long
  /-- Line 208: "Unknown name type in server name extension". -/
  | unknown_name_type
  deriving DecidableEq, Repr

/-- What a call does: `ret = false` is a NULL return, `ret = true` a return of the pointer
`server_name`; `server_name` is the static array after the call; `reads` are the offsets
(relative to the pointer argument) of the input bytes read; `writes` are the indices of
`server_name` stored to; `log` is what was printed on `stderr`. -/
structure Outcome where
  ret : Bool
  server_name : Nat → Byte
  reads : List Nat
  writes : List Nat
  log : List Diag

/-- A `return NULL`: the static array is untouched. -/
def Outcome.null (sn : Nat → Byte) (reads : List Nat) (log : List Diag) : Outcome :=
  { ret := false, server_name := sn, reads := reads, writes := [], log := log }

/-- The outcome `o` of the rest of an execution, seen from a point before which the offsets
`reads` were read and `log` was printed; `base` is the offset of the pointer that `o`'s own
reads are relative to. -/
def Outcome.after (reads : List Nat) (log : List Diag) (base : Nat) (o : Outcome) : Outcome :=
  { ret := o.ret, server_name := o.server_name,
    reads := reads ++ o.reads.map (base + ·), writes := o.writes, log := log ++ o.log }

/-- Pointer arithmetic `m + k` on a memory. -/
def shift (m : Nat → Byte) (k : Nat) : Nat → Byte := fun i => m (k + i)

/-- The `n` bytes `strncpy(dest, src + off, n)` stores at `dest[0 .. n-1]`: the bytes of the
source up to its first NUL, then NUL padding up to `n` bytes. -/
def strncpy_image (src : Nat → Byte) : Nat → Nat → List Byte
  | _, 0 => []
  | off, n + 1 =>
    if src off = 0 then List.replicate (n + 1) 0
    else src off :: strncpy_image src (off + 1) n

/-- The source offsets `strncpy(dest, src + off, n)` reads: up to and including the first
NUL, at most `n` of them. -/
def strncpy_reads (src : Nat → Byte) : Nat → Nat → List Nat
  | _, 0 => []
  | off, n + 1 =>
    if src off = 0 then [off]
    else off :: strncpy_reads src (off + 1) n

/-- Storing the bytes `bs` at `dest[0 .. bs.length-1]`. -/
def store (dest : Nat → Byte) (bs : List Byte) : Nat → Byte :=
  fun i => if h : i < bs.length then bs.get ⟨i, h⟩ else dest i

/-- The assignment `dest[k] = b`. -/
def poke (dest : Nat → Byte) (k : Nat) (b : Byte) : Nat → Byte :=
  fun i => if i = k then b else dest i

/-- Lines 181-210, the `while(1)` of `parse_server_name_extension`, entered with the cursor at
offset `p` from `buf`. -/
def name_loop (buf : Nat → Byte) (buf_len : Int) (sn : Nat → Byte) : Nat → Nat → Option Outcome
  | 0, _ => none
  | fuel + 1, p =>
    if (p : Int) ≥ buf_len then
      some (Outcome.null sn [] [Diag.incomplete_server_name 183])
    else
      let name_type := buf p
      let p1 := p + 1
      if name_type = 0x00 then
        if (p1 : Int) + 1 > buf_len then
          some (Outcome.null sn [p] [Diag.incomplete_server_name 191])
        else
          let name_len := ((buf p1).val <<< 8) + (buf (p1 + 1)).val
          let p2 := p1 + 2
          if (p2 : Int) + (name_len : Int) > buf_len then
            some (Outcome.null sn [p, p1, p1 + 1] [Diag.incomplete_server_name 197])
          else if name_len ≥ SERVER_NAME_LEN - 1 then
            some (Outcome.null sn [p, p1, p1 + 1] [Diag.name_too_long])
          else
            some { ret := true
                   server_name := poke (store sn (strncpy_image buf p2 name_len)) name_len 0
                   reads := [p, p1, p1 + 1] ++ strncpy_reads buf p2 name_len
                   writes := List.range name_len ++ [name_len]
                   log := [] }
      else
        (name_loop buf buf_len sn fuel p1).map
          (Outcome.after [p] [Diag.unknown_name_type] 0)

/-- Lines 165-211: `parse_server_name_extension(buf, buf_len)`, with `sn` the contents of the
static array `server_name` on entry. -/
def parse_server_name_extension (buf : Nat → Byte) (buf_len : Int) (sn : Nat → Byte) :
    Option Outcome :=
  let p : Nat := 0
  if (p : Int) + 1 > buf_len then
    some (Outcome.null sn [] [Diag.incomplete_server_name 174])
  else
    -- `ext_len = (p[0] << 8) + p[1]` is read and never used
    let p := p + 2
    (name_loop buf buf_len sn buf_len.toNat p).map (Outcome.after [0, 1] [] 0)

/-- The offsets read by one pass over an extension header at offset `p` (lines 149-150): the
two length bytes, the first type byte, and the second type byte when the first is zero. -/
def header_reads (data : Nat → Byte) (p : Nat) : List Nat :=
  [p + 2, p + 3, p] ++ (if data p = 0x00 then [p + 1] else [])

/-- Lines 142-161, the `while (1)` of `parse_tls_header`, entered with the cursor at offset
`p` from `data`. -/
def ext_loop (data : Nat → Byte) (data_len : Int) (sn : Nat → Byte) : Nat → Nat → Option Outcome
  | 0, _ => none
  | fuel + 1, p =>
    if (p : Int) + 4 ≥ data_len then
      some (Outcome.null sn [] [Diag.no_more_extensions 144])
    else
      let len := ((data (p + 2)).val <<< 8) + (data (p + 3)).val
      if data p = 0x00 ∧ data (p + 1) = 0x00 then
        let q := p + 4
        if (q : Int) + (len : Int) > data_len then
          some (Outcome.null sn (header_reads data p) [Diag.incomplete_header 155])
        else
          (parse_server_name_extension (shift data q) (len : Int) sn).map
            (Outcome.after (header_reads data p) [] q)
      else
        (ext_loop data data_len sn fuel (p + 4 + len)).map
          (Outcome.after (header_reads data p) [] 0)

/-- Lines 45-140 of `parse_tls_header`: the record and handshake checks and the walk over the
session id, the cipher suites, the compression methods and the extensions length.  Either the
function returns here (`Sum.inl`, the outcome), or the `while (1)` of line 142 is entered
(`Sum.inr`) with the cursor at the given offset and the given offsets read so far. -/
def hello_walk (data : Nat → Byte) (data_len : Int) (sn : Nat → Byte) :
    Outcome ⊕ (Nat × List Nat) :=
  if data_len < (TLS_HEADER_LEN : Int) then
    Sum.inl (Outcome.null sn [] [])
  else
    let tls_content_type := data 0
    if tls_content_type ≠ TLS_HANDSHAKE_CONTENT_TYPE then
      Sum.inl (Outcome.null sn [0] [Diag.not_handshake])
    else
      let tls_version_major := data 1
      let tls_version_minor := data 2
      if tls_version_major.val < 3 then
        Sum.inl (Outcome.null sn [0, 1, 2] [Diag.pre_ssl3])
      else if tls_version_major.val = 3 ∧ tls_version_minor.val < 1 then
        Sum.inl (Outcome.null sn [0, 1, 2] [Diag.ssl3])
      else
        let tls_length := (((data 3).val <<< 8) + (data 4).val) % 65536
        if data_len < (tls_length : Int) + (TLS_HEADER_LEN : Int) then
          Sum.inl (Outcome.null sn [0, 1, 2, 3, 4] [Diag.incomplete_header 69])
        else
          let p := TLS_HEADER_LEN
          if (p : Int) ≥ data_len then
            Sum.inl (Outcome.null sn [0, 1, 2, 3, 4] [Diag.incomplete_header 79])
          else if data p ≠ TLS_HANDSHAKE_TYPE_CLIENT_HELLO then
            Sum.inl (Outcome.null sn [0, 1, 2, 3, 4, 5] [Diag.not_client_hello])
          else
            let p := p + 38
            if (p : Int) ≥ data_len then
              Sum.inl (Outcome.null sn [0, 1, 2, 3, 4, 5] [Diag.incomplete_header 97])
            else
              let len := (data p).val
              let p1 := p + 1 + len
              if (p1 : Int) ≥ data_len then
                Sum.inl (Outcome.null sn [0, 1, 2, 3, 4, 5, p] [Diag.incomplete_header 104])
              else
                let len := (data p1).val <<< 8
                let p2 := p1 + 1
                if (p2 : Int) ≥ data_len then
                  Sum.inl (Outcome.null sn [0, 1, 2, 3, 4, 5, p, p1]
                    [Diag.incomplete_header 111])
                else
                  let len := len + (data p2).val
                  let p3 := p2 + 1 + len
                  if (p3 : Int) ≥ data_len then
                    Sum.inl (Outcome.null sn [0, 1, 2, 3, 4, 5, p, p1, p2]
                      [Diag.incomplete_header 119])
                  else
                    let len := (data p3).val
                    let p4 := p3 + 1 + len
                    if (p4 : Int) ≥ data_len then
                      Sum.inl (Outcome.null sn [0, 1, 2, 3, 4, 5, p, p1, p2, p3]
                        [Diag.no_extensions 128])
                    else
                      -- the extensions length `len` is assembled and never used
                      let p5 := p4 + 1
                      if (p5 : Int) ≥ data_len then
                        Sum.inl (Outcome.null sn [0, 1, 2, 3, 4, 5, p, p1, p2, p3, p4]
                          [Diag.incomplete_header 136])
                      else
                        let p6 := p5 + 1
                        Sum.inr (p6, [0, 1, 2, 3, 4, 5, p, p1, p2, p3, p4, p5])

/-- Lines 36-163: `parse_tls_header(data, data_len)`, with `sn` the contents of the static
array `server_name` on entry: the walk of lines 45-140, then the loop of lines 142-161. -/
def parse_tls_header (data : Nat → Byte) (data_len : Int) (sn : Nat → Byte) : Option Outcome :=
  match hello_walk data data_len sn with
  | Sum.inl o => some o
  | Sum.inr (p, rd) =>
    (ext_loop data data_len sn data_len.toNat p).map (Outcome.after rd [] 0)

/-- The cursor values with which `parse_tls_header(data, data_len)` arrives at the head of its
`while (1)` loop (line 142): the cursor the walk of lines 45-140 ends with, and the cursor
after line 160 of an iteration that passed the check of line 143 and did not find type
0x0000. -/
inductive Reaches (data : Nat → Byte) (data_len : Int) (sn : Nat → Byte) : Nat → Prop where
  | first (p : Nat) (rd : List Nat) :
      hello_walk data data_len sn = Sum.inr (p, rd) → Reaches data data_len sn p
  | next (p : Nat) :
      Reaches data data_len sn p → ¬ ((p : Int) + 4 ≥ data_len) →
      ¬ (data p = 0x00 ∧ data (p + 1) = 0x00) →
      Reaches data data_len sn (p + 4 + (((data (p + 2)).val <<< 8) + (data (p + 3)).val))

/-! ## The wire format, as the claims describe it -/

/-- The byte `n mod 256`. -/
def byte (n : Nat) : Byte := ⟨n % 256, Nat.mod_lt n (by decide)⟩

/-- The bytes `bs` lie in the memory `m` from offset `off` on. -/
def stored (m : Nat → Byte) (off : Nat) (bs : List Byte) : Prop :=
  ∀ i (h : i < bs.length), m (off + i) = bs.get ⟨i, h⟩

instance (m : Nat → Byte) (off : Nat) (bs : List Byte) : Decidable (stored m off bs) := by
  unfold stored; infer_instance

/-- An extension on the wire: two type bytes, and a payload that the encoding prefixes with
its two-byte big-endian length. -/
structure Extension where
  type_hi : Byte
  type_lo : Byte
  payload : List Byte

/-- The encoding of an extension: type, length, payload. -/
def Extension.encode (e : Extension) : List Byte :=
  e.type_hi :: e.type_lo :: byte (e.payload.length / 256) :: byte e.payload.length :: e.payload

/-- An extension whose payload length fits the two-byte length field. -/
def Extension.fits (e : Extension) : Prop := e.payload.length < 65536

/-- An extension whose type is 0x0000, `server_name`. -/
def Extension.is_server_name (e : Extension) : Prop := e.type_hi = 0x00 ∧ e.type_lo = 0x00

/-- The encoding of a list of extensions, one after the other. -/
def encode_extensions : List Extension → List Byte
  | [] => []
  | e :: es => e.encode ++ encode_extensions es

/-- The part of a ClientHello record before the extensions block: the record header with
its version and declared length, the 37 bytes between the handshake type and the session id
length (handshake length, version, random), the session id, the cipher suites and the
compression methods. -/
structure Hello where
  version_major : Byte
  version_minor : Byte
  length_hi : Byte
  length_lo : Byte
  fixed : List Byte
  session_id : List Byte
  cipher_suites : List Byte
  compression : List Byte

/-- The encoding of the record up to and including the compression methods. -/
def Hello.encode (h : Hello) : List Byte :=
  [0x16, h.version_major, h.version_minor, h.length_hi, h.length_lo, 0x01] ++ h.fixed ++
  byte h.session_id.length :: h.session_id ++
  byte (h.cipher_suites.length / 256) :: byte h.cipher_suites.length :: h.cipher_suites ++
  byte h.compression.length :: h.compression

/-- The record length the header declares. -/
def Hello.declared (h : Hello) : Nat := h.length_hi.val * 256 + h.length_lo.val

/-- A well-formed record prefix: version at least 3.1, 37 fixed bytes, and variable fields
whose lengths fit their length prefixes. -/
def Hello.well_formed (h : Hello) : Prop :=
  (h.version_major.val > 3 ∨ (h.version_major.val = 3 ∧ h.version_minor.val ≥ 1)) ∧
  h.fixed.length = 37 ∧ h.session_id.length < 256 ∧ h.cipher_suites.length < 65536 ∧
  h.compression.length < 256

/-! ## Concrete inputs -/

/-- The memory that holds the bytes `bs` from offset 0 and zero bytes after them. -/
def ofBytes (bs : List Byte) : Nat → Byte := fun i => bs.getD i 0

/-- A static array holding zero bytes, as at program start. -/
def zeros : Nat → Byte := fun _ => 0

/-- The first `n` bytes of a memory. -/
def bytes (m : Nat → Byte) (n : Nat) : List Byte := (List.range n).map m

/-- The C string at the start of a memory of capacity `cap`: the bytes before the first NUL. -/
def c_string (m : Nat → Byte) (cap : Nat) : List Byte := (bytes m cap).takeWhile (· ≠ 0)

/-- Section 8 of the specification: TLS 1.2 record header, ClientHello with a zero-length
session id, one cipher suite, no compression methods, and one extension of type 0x0000
carrying the single host name "localhost". -/
def localhost_hello : List Byte :=
  [0x16, 0x03, 0x03, 0x00, 0x40,            -- record header, length 64
   0x01, 0x00, 0x00, 0x3c, 0x03, 0x03] ++   -- ClientHello, length 60, version 3.3
  List.replicate 32 0xab ++                  -- random
  [0x00,                                     -- session id length
   0x00, 0x02, 0xc0, 0x2f,                   -- one cipher suite
   0x00,                                     -- compression methods length
   0x00, 0x12,                               -- extensions length 18
   0x00, 0x00, 0x00, 0x0e,                   -- extension server_name, length 14
   0x00, 0x0c,                               -- server name list length 12
   0x00, 0x00, 0x09,                         -- host_name, length 9
   0x6c, 0x6f, 0x63, 0x61, 0x6c, 0x68, 0x6f, 0x73, 0x74]

instance (h : Hello) : Decidable h.well_formed := by
  unfold Hello.well_formed; infer_instance

/-- The payload of a server_name extension that holds one host_name entry: the two bytes of
the list length, the name type 0x00, the two-byte big-endian name length, the name. -/
def server_name_payload (list_hi list_lo : Byte) (name : List Byte) : List Byte :=
  list_hi :: list_lo :: 0x00 :: byte (name.length / 256) :: byte name.length :: name

/-- A ClientHello record with an extensions block: the record prefix, the two bytes of the
extensions length, the extensions. -/
def client_hello (h : Hello) (ext_hi ext_lo : Byte) (exts : List Extension) : List Byte :=
  h.encode ++ ext_hi :: ext_lo :: encode_extensions exts

/-- The record prefix of the examples of section 8 of the specification: TLS 1.2, declared
record length `n`, zero-length session id, one cipher suite, no compression methods. -/
def example_hello (n : Nat) : Hello :=
  { version_major := 0x03, version_minor := 0x03,
    length_hi := byte (n / 256), length_lo := byte n,
    fixed := [0x00, 0x00, 0x3c, 0x03, 0x03] ++ List.replicate 32 0xab,
    session_id := [], cipher_suites := [0xc0, 0x2f], compression := [] }

/-- The "localhost" example with the extension type 0x0001 in place of 0x0000. -/
def other_extension_hello : List Byte :=
  client_hello (example_hello 64) 0x00 0x12
    [⟨0x00, 0x01, server_name_payload 0x00 0x0c [0x6c, 0x6f, 0x63, 0x61, 0x6c, 0x68, 0x6f, 0x73, 0x74]⟩]

/-- A ClientHello whose server_name extension carries the three-byte name `61 00 62`. -/
def nul_name_hello : List Byte :=
  client_hello (example_hello 58) 0x00 0x0c
    [⟨0x00, 0x00, server_name_payload 0x00 0x06 [0x61, 0x00, 0x62]⟩]

/-- A 54-byte ClientHello (no cipher suites) whose server_name extension header, at offsets
49..52, declares length 1; its one payload byte is the last byte of the buffer. -/
def short_server_name_hello : List Byte :=
  [0x16, 0x03, 0x03, 0x00, 0x31, 0x01, 0x00, 0x00, 0x2d, 0x03, 0x03] ++
  List.replicate 32 0xab ++
  [0x00, 0x00, 0x00, 0x00, 0x00, 0x05, 0x00, 0x00, 0x00, 0x01, 0x00]

/-- A ClientHello whose server_name extension header declares length 20 while 10 bytes
remain in the buffer. -/
def oversized_extension_hello : List Byte :=
  (example_hello 60).encode ++
  [0x00, 0x18, 0x00, 0x00, 0x00, 0x14, 0x00, 0x12, 0x00, 0x00, 0x0f, 0x6c, 0x6f, 0x63, 0x61, 0x6c]

/-- A server_name payload whose single host_name entry has a 255-byte name. -/
def long_name_payload : List Byte := server_name_payload 0x01 0x02 (List.replicate 255 0x61)

/-- A server_name payload with an entry of the unknown name type 0x01 and declared length 0
(`01 00 00`), followed by the host_name entry `00 00 01 61`. -/
def unknown_entry_payload : List Byte :=
  [0x00, 0x07, 0x01, 0x00, 0x00, 0x00, 0x00, 0x01, 0x61]

/-- A server_name payload (list length `01 0b`) with an entry of the unknown name type 0x01
and declared length 257 (`01 01 01`, then 257 body bytes that start `00 00 04 65 76 69 6c`,
a host_name entry for "evil", and go on with 250 bytes `2e`), followed by the host_name entry
`00 00 04 67 6f 6f 64` for "good". -/
def unknown_body_payload : List Byte :=
  [0x01, 0x0b, 0x01, 0x01, 0x01, 0x00, 0x00, 0x04, 0x65, 0x76, 0x69, 0x6c] ++
  List.replicate 250 0x2e ++ [0x00, 0x00, 0x04, 0x67, 0x6f, 0x6f, 0x64]

/-- The offset of the extensions length field, the two bytes immediately after the
compression methods, as the length prefixes of the session id (at offset 43), of the cipher
suites and of the compression methods place it. -/
def extensions_length_offset (data : Nat → Byte) : Nat :=
  44 + (data 43).val + 1 + 1 +
    (((data (44 + (data 43).val)).val <<< 8) + (data (44 + (data 43).val + 1)).val) + 1 +
    (data (44 + (data 43).val + 1 + 1 +
      (((data (44 + (data 43).val)).val <<< 8) + (data (44 + (data 43).val + 1)).val))).val

/-- The record length that the bytes at offsets 3 and 4 declare (line 67). -/
def declared_length (data : Nat → Byte) : Nat :=
  (((data 3).val <<< 8) + (data 4).val) % 65536

/-- The discipline of an outcome towards the static array, `sn` being the array before the
call: a NULL return leaves the array as it was and stores nothing; a non-NULL return has
stored at the indices `0 .. n-1` (the copy) and then at `n` (the terminator) for some
`n < SERVER_NAME_LEN - 1`; no store is at an index above `SERVER_NAME_LEN - 2`, and the array
is unchanged there. -/
def Outcome.disciplined (sn : Nat → Byte) (o : Outcome) : Prop :=
  (o.ret = false → o.server_name = sn ∧ o.writes = []) ∧
  (o.ret = true → ∃ n, n < SERVER_NAME_LEN - 1 ∧ o.writes = List.range n ++ [n]) ∧
  (∀ i ∈ o.writes, i ≤ SERVER_NAME_LEN - 2) ∧
  (∀ i, SERVER_NAME_LEN - 1 ≤ i → o.server_name i = sn i)

/-- A ClientHello with two extensions of type 0x0000: the first has the payload
`00 03 01 02 03` (a list of three unknown name types), the second carries the host name
"localhost". -/
def two_server_names_hello : List Byte :=
  client_hello (example_hello 73) 0x00 0x1b
    [⟨0x00, 0x00, [0x00, 0x03, 0x01, 0x02, 0x03]⟩,
     ⟨0x00, 0x00, server_name_payload 0x00 0x0c
       [0x6c, 0x6f, 0x63, 0x61, 0x6c, 0x68, 0x6f, 0x73, 0x74]⟩]

/-- The extensions of a list that ends exactly at `data_len` which the loop of lines 142-161
examines: all of them, except a last extension with an empty payload (at its header the check
of line 143, `p - data + 4 >= data_len`, ends the loop). -/
def examined_extensions : List Extension → List Extension
  | [] => []
  | [e] => if e.payload = [] then [] else [e]
  | e :: e' :: es => e :: examined_extensions (e' :: es)

/-- The offsets read by a loop that, from the cursor `p` on, examines the extensions `es` one
after the other and skips each by its declared length: the header bytes at the cursor
(lines 149-150), the cursor then advancing by 4 plus the payload length (line 160). -/
def skip_reads (data : Nat → Byte) : Nat → List Extension → List Nat
  | _, [] => []
  | p, e :: es => header_reads data p ++ skip_reads data (p + 4 + e.payload.length) es

/-- A ClientHello with two extensions that end the buffer: type 0x0001 with the one payload
byte `aa` at offsets 51..55, and type 0x0002 with an empty payload at offsets 56..59. -/
def empty_last_extension_hello : List Byte :=
  client_hello (example_hello 55) 0x00 0x09 [⟨0x00, 0x01, [0xaa]⟩, ⟨0x00, 0x02, []⟩]

/-! ## Auxiliary facts -/

@[simp] theorem after_ret (r : List Nat) (l : List Diag) (b : Nat) (o : Outcome) :
    (Outcome.after r l b o).ret = o.ret := rfl

@[simp] theorem after_server_name (r : List Nat) (l : List Diag) (b : Nat) (o : Outcome) :
    (Outcome.after r l b o).server_name = o.server_name := rfl

@[simp] theorem after_writes (r : List Nat) (l : List Diag) (b : Nat) (o : Outcome) :
    (Outcome.after r l b o).writes = o.writes := rfl

@[simp] theorem after_log (r : List Nat) (l : List Diag) (b : Nat) (o : Outcome) :
    (Outcome.after r l b o).log = l ++ o.log := rfl

@[simp] theorem after_reads (r : List Nat) (l : List Diag) (b : Nat) (o : Outcome) :
    (Outcome.after r l b o).reads = r ++ o.reads.map (b + ·) := rfl

theorem after_after (r1 r2 : List Nat) (l1 l2 : List Diag) (b : Nat) (o : Outcome) :
    Outcome.after r1 l1 0 (Outcome.after r2 l2 b o) = Outcome.after (r1 ++ r2) (l1 ++ l2) b o := by
  simp [Outcome.after, List.append_assoc]

theorem stored_nil (m : Nat → Byte) (off : Nat) : stored m off [] := by
  intro i h; simp at h

theorem stored_cons (m : Nat → Byte) (off : Nat) (b : Byte) (bs : List Byte) :
    stored m off (b :: bs) ↔ m off = b ∧ stored m (off + 1) bs := by
  constructor
  · intro h
    refine ⟨by simpa using h 0 (by simp), ?_⟩
    intro i hi
    have := h (i + 1) (by simpa using hi)
    simpa [Nat.add_assoc, Nat.add_comm 1 i] using this
  · rintro ⟨h0, h1⟩ i hi
    cases i with
    | zero => simpa using h0
    | succ j =>
      have := h1 j (by simpa using hi)
      simpa [Nat.add_assoc, Nat.add_comm 1 j] using this

theorem stored_append (m : Nat → Byte) (off : Nat) (as bs : List Byte) :
    stored m off (as ++ bs) ↔ stored m off as ∧ stored m (off + as.length) bs := by
  induction as generalizing off with
  | nil => simp [stored_nil]
  | cons a as ih =>
    simp only [List.cons_append, stored_cons, ih, List.length_cons, and_assoc]
    have e : off + 1 + as.length = off + (as.length + 1) := by omega
    rw [e]

theorem stored_ofBytes (bs : List Byte) : stored (ofBytes bs) 0 bs := by
  intro i h
  simp [ofBytes, List.getElem?_eq_getElem h]

@[simp] theorem byte_val (n : Nat) : (byte n).val = n % 256 := rfl

/-- Fuel `f` is enough for the name loop at cursor `p`: the loop returns at once when
`p ≥ buf_len` and otherwise returns or moves the cursor by 1. -/
theorem name_loop_succ (buf : Nat → Byte) (buf_len : Int) (sn : Nat → Byte) (f p : Nat)
    (h1 : 1 ≤ f) (h2 : buf_len - p < (f : Int)) :
    name_loop buf buf_len sn (f + 1) p = name_loop buf buf_len sn f p := by
  induction f generalizing p with
  | zero => omega
  | succ f ih =>
    rw [name_loop, name_loop]
    split
    · rfl
    · rename_i hlt
      dsimp only
      split
      · rfl
      · rw [ih]
        · omega
        · push_cast; omega

theorem name_loop_add (buf : Nat → Byte) (buf_len : Int) (sn : Nat → Byte) (f p k : Nat)
    (h1 : 1 ≤ f) (h2 : buf_len - p < (f : Int)) :
    name_loop buf buf_len sn (f + k) p = name_loop buf buf_len sn f p := by
  induction k with
  | zero => rfl
  | succ k ih =>
    rw [← Nat.add_assoc, name_loop_succ _ _ _ _ _ (by omega) (by push_cast; omega), ih]

theorem name_loop_total (buf : Nat → Byte) (buf_len : Int) (sn : Nat → Byte) (f p : Nat)
    (h1 : 1 ≤ f) (h2 : buf_len - p < (f : Int)) :
    ∃ o, name_loop buf buf_len sn f p = some o := by
  induction f generalizing p with
  | zero => omega
  | succ f ih =>
    rw [name_loop]
    split
    · exact ⟨_, rfl⟩
    · rename_i hlt
      dsimp only
      split
      · split
        · exact ⟨_, rfl⟩
        · split
          · exact ⟨_, rfl⟩
          · split
            · exact ⟨_, rfl⟩
            · exact ⟨_, rfl⟩
      · obtain ⟨o, ho⟩ := ih (p + 1) (by omega) (by push_cast; omega)
        exact ⟨_, by rw [ho]; rfl⟩

theorem parse_server_name_extension_total (buf : Nat → Byte) (buf_len : Int)
    (sn : Nat → Byte) : ∃ o, parse_server_name_extension buf buf_len sn = some o := by
  unfold parse_server_name_extension
  dsimp only
  split
  · exact ⟨_, rfl⟩
  · rename_i h
    obtain ⟨o, ho⟩ := name_loop_total buf buf_len sn buf_len.toNat (0 + 2) (by omega) (by omega)
    exact ⟨_, by rw [ho]; rfl⟩

/-- Fuel `f` is enough for the extension loop at cursor `p`: the loop returns at once when
`p + 4 ≥ data_len` and otherwise moves the cursor by at least 4. -/
theorem ext_loop_succ (data : Nat → Byte) (data_len : Int) (sn : Nat → Byte) (f p : Nat)
    (h1 : 1 ≤ f) (h2 : data_len - p ≤ 4 * (f : Int)) :
    ext_loop data data_len sn (f + 1) p = ext_loop data data_len sn f p := by
  induction f generalizing p with
  | zero => omega
  | succ f ih =>
    rw [ext_loop, ext_loop]
    split
    · rfl
    · rename_i hlt
      split
      · rfl
      · dsimp only
        rw [ih]
        · omega
        · push_cast; omega

theorem ext_loop_add (data : Nat → Byte) (data_len : Int) (sn : Nat → Byte) (f p k : Nat)
    (h1 : 1 ≤ f) (h2 : data_len - p ≤ 4 * (f : Int)) :
    ext_loop data data_len sn (f + k) p = ext_loop data data_len sn f p := by
  induction k with
  | zero => rfl
  | succ k ih =>
    rw [← Nat.add_assoc, ext_loop_succ _ _ _ _ _ (by omega) (by push_cast; omega), ih]

theorem ext_loop_total (data : Nat → Byte) (data_len : Int) (sn : Nat → Byte) (f p : Nat)
    (h1 : 1 ≤ f) (h2 : data_len - p ≤ 4 * (f : Int)) :
    ∃ o, ext_loop data data_len sn f p = some o := by
  induction f generalizing p with
  | zero => omega
  | succ f ih =>
    rw [ext_loop]
    split
    · exact ⟨_, rfl⟩
    · rename_i hlt
      split
      · dsimp only
        split
        · exact ⟨_, rfl⟩
        · obtain ⟨o, ho⟩ := parse_server_name_extension_total
            (shift data (p + 4)) (((data (p + 2)).val <<< 8 + (data (p + 3)).val : Nat) : Int) sn
          exact ⟨_, by rw [ho]; rfl⟩
      · dsimp only
        obtain ⟨o, ho⟩ := ih (p + 4 + ((data (p + 2)).val <<< 8 + (data (p + 3)).val))
          (by omega) (by push_cast; omega)
        exact ⟨_, by rw [ho]; rfl⟩

theorem ite_inl_ne_inr {α β : Type} {c : Prop} [Decidable c] {o : α} {x : α ⊕ β} {y : β}
    (h : (if c then Sum.inl o else x) = Sum.inr y) : ¬ c ∧ x = Sum.inr y := by
  by_cases hc : c
  · rw [if_pos hc] at h; cases h
  · rw [if_neg hc] at h; exact ⟨hc, h⟩

/-- When the walk of lines 45-140 enters the loop, every check of lines 46-86 has passed, the
cursor is at least 49 and at most `data_len`, and every offset read is inside the buffer. -/
theorem hello_walk_inr (data : Nat → Byte) (data_len : Int) (sn : Nat → Byte) (p : Nat)
    (rd : List Nat) (hw : hello_walk data data_len sn = Sum.inr (p, rd)) :
    data 0 = 0x16 ∧ ((data 1).val > 3 ∨ ((data 1).val = 3 ∧ (data 2).val ≥ 1)) ∧
    (((data 3).val * 256 + (data 4).val : Nat) : Int) + 5 ≤ data_len ∧ data 5 = 0x01 ∧
    49 ≤ p ∧ (p : Int) ≤ data_len ∧ ∀ i ∈ rd, (i : Int) < data_len := by
  unfold hello_walk at hw
  obtain ⟨h1, hw⟩ := ite_inl_ne_inr hw
  obtain ⟨h2, hw⟩ := ite_inl_ne_inr hw
  obtain ⟨h3, hw⟩ := ite_inl_ne_inr hw
  obtain ⟨h4, hw⟩ := ite_inl_ne_inr hw
  obtain ⟨h5, hw⟩ := ite_inl_ne_inr hw
  obtain ⟨h6, hw⟩ := ite_inl_ne_inr hw
  obtain ⟨h7, hw⟩ := ite_inl_ne_inr hw
  obtain ⟨h8, hw⟩ := ite_inl_ne_inr hw
  obtain ⟨h9, hw⟩ := ite_inl_ne_inr hw
  obtain ⟨h10, hw⟩ := ite_inl_ne_inr hw
  obtain ⟨h11, hw⟩ := ite_inl_ne_inr hw
  obtain ⟨h12, hw⟩ := ite_inl_ne_inr hw
  obtain ⟨h13, hw⟩ := ite_inl_ne_inr hw
  simp only [Sum.inr.injEq, Prod.mk.injEq] at hw
  obtain ⟨rfl, rfl⟩ := hw
  simp only [TLS_HEADER_LEN, TLS_HANDSHAKE_CONTENT_TYPE, TLS_HANDSHAKE_TYPE_CLIENT_HELLO,
    not_not] at *
  refine ⟨h2, by omega, by omega, h7, by omega, by omega, ?_⟩
  intro i hi
  simp only [List.mem_cons, List.mem_singleton, List.not_mem_nil, or_false] at hi
  omega

theorem ite_inl_cases {α β : Type} {c : Prop} [Decidable c] {o o' : α} {x : α ⊕ β}
    (h : (if c then Sum.inl o else x) = Sum.inl o') : (c ∧ o' = o) ∨ (¬ c ∧ x = Sum.inl o') := by
  by_cases hc : c
  · rw [if_pos hc] at h; exact Or.inl ⟨hc, (Sum.inl.inj h).symm⟩
  · rw [if_neg hc] at h; exact Or.inr ⟨hc, h⟩

/-- When the walk of lines 45-140 returns, it returns NULL, leaves the static array alone and
has read inside the buffer only. -/
theorem hello_walk_inl (data : Nat → Byte) (data_len : Int) (sn : Nat → Byte) (o : Outcome)
    (hw : hello_walk data data_len sn = Sum.inl o) :
    o.ret = false ∧ o.server_name = sn ∧ o.writes = [] ∧ ∀ i ∈ o.reads, (i : Int) < data_len := by
  unfold hello_walk at hw
  rcases ite_inl_cases hw with ⟨h1, rfl⟩ | ⟨h1, hw⟩
  · exact ⟨rfl, rfl, rfl, fun i hi => by simp [Outcome.null] at hi⟩
  rcases ite_inl_cases hw with ⟨h2, rfl⟩ | ⟨h2, hw⟩
  · refine ⟨rfl, rfl, rfl, ?_⟩
    intro i hi
    simp only [Outcome.null, List.mem_cons, List.mem_singleton, List.not_mem_nil, or_false]
      at hi
    simp only [TLS_HEADER_LEN, not_not] at *
    omega
  rcases ite_inl_cases hw with ⟨h3, rfl⟩ | ⟨h3, hw⟩
  · refine ⟨rfl, rfl, rfl, ?_⟩
    intro i hi
    simp only [Outcome.null, List.mem_cons, List.mem_singleton, List.not_mem_nil, or_false]
      at hi
    simp only [TLS_HEADER_LEN, not_not] at *
    omega
  rcases ite_inl_cases hw with ⟨h4, rfl⟩ | ⟨h4, hw⟩
  · refine ⟨rfl, rfl, rfl, ?_⟩
    intro i hi
    simp only [Outcome.null, List.mem_cons, List.mem_singleton, List.not_mem_nil, or_false]
      at hi
    simp only [TLS_HEADER_LEN, not_not] at *
    omega
  rcases ite_inl_cases hw with ⟨h5, rfl⟩ | ⟨h5, hw⟩
  · refine ⟨rfl, rfl, rfl, ?_⟩
    intro i hi
    simp only [Outcome.null, List.mem_cons, List.mem_singleton, List.not_mem_nil, or_false]
      at hi
    simp only [TLS_HEADER_LEN, not_not] at *
    omega
  rcases ite_inl_cases hw with ⟨h6, rfl⟩ | ⟨h6, hw⟩
  · refine ⟨rfl, rfl, rfl, ?_⟩
    intro i hi
    simp only [Outcome.null, List.mem_cons, List.mem_singleton, List.not_mem_nil, or_false]
      at hi
    simp only [TLS_HEADER_LEN, not_not] at *
    omega
  rcases ite_inl_cases hw with ⟨h7, rfl⟩ | ⟨h7, hw⟩
  · refine ⟨rfl, rfl, rfl, ?_⟩
    intro i hi
    simp only [Outcome.null, List.mem_cons, List.mem_singleton, List.not_mem_nil, or_false]
      at hi
    simp only [TLS_HEADER_LEN, not_not] at *
    omega
  rcases ite_inl_cases hw with ⟨h8, rfl⟩ | ⟨h8, hw⟩
  · refine ⟨rfl, rfl, rfl, ?_⟩
    intro i hi
    simp only [Outcome.null, List.mem_cons, List.mem_singleton, List.not_mem_nil, or_false]
      at hi
    simp only [TLS_HEADER_LEN, not_not] at *
    omega
  rcases ite_inl_cases hw with ⟨h9, rfl⟩ | ⟨h9, hw⟩
  · refine ⟨rfl, rfl, rfl, ?_⟩
    intro i hi
    simp only [Outcome.null, List.mem_cons, List.mem_singleton, List.not_mem_nil, or_false]
      at hi
    simp only [TLS_HEADER_LEN, not_not] at *
    omega
  rcases ite_inl_cases hw with ⟨h10, rfl⟩ | ⟨h10, hw⟩
  · refine ⟨rfl, rfl, rfl, ?_⟩
    intro i hi
    simp only [Outcome.null, List.mem_cons, List.mem_singleton, List.not_mem_nil, or_false]
      at hi
    simp only [TLS_HEADER_LEN, not_not] at *
    omega
  rcases ite_inl_cases hw with ⟨h11, rfl⟩ | ⟨h11, hw⟩
  · refine ⟨rfl, rfl, rfl, ?_⟩
    intro i hi
    simp only [Outcome.null, List.mem_cons, List.mem_singleton, List.not_mem_nil, or_false]
      at hi
    simp only [TLS_HEADER_LEN, not_not] at *
    omega
  rcases ite_inl_cases hw with ⟨h12, rfl⟩ | ⟨h12, hw⟩
  · refine ⟨rfl, rfl, rfl, ?_⟩
    intro i hi
    simp only [Outcome.null, List.mem_cons, List.mem_singleton, List.not_mem_nil, or_false]
      at hi
    simp only [TLS_HEADER_LEN, not_not] at *
    omega
  rcases ite_inl_cases hw with ⟨h13, rfl⟩ | ⟨h13, hw⟩
  · refine ⟨rfl, rfl, rfl, ?_⟩
    intro i hi
    simp only [Outcome.null, List.mem_cons, List.mem_singleton, List.not_mem_nil, or_false]
      at hi
    simp only [TLS_HEADER_LEN, not_not] at *
    omega
  cases hw

theorem parse_tls_header_total (data : Nat → Byte) (data_len : Int) (sn : Nat → Byte) :
    ∃ o, parse_tls_header data data_len sn = some o := by
  unfold parse_tls_header
  split
  · exact ⟨_, rfl⟩
  · rename_i p rd hw
    have hp := hello_walk_inr data data_len sn p rd hw
    obtain ⟨o, ho⟩ := ext_loop_total data data_len sn data_len.toNat p (by omega) (by omega)
    exact ⟨_, by rw [ho]; rfl⟩

/-- The walk of lines 45-140 over a well-formed record prefix stored at `data`: it gets as far
as the check of line 127, and what happens then depends on how many bytes follow the
compression methods. -/
theorem hello_walk_stored (data : Nat → Byte) (data_len : Int) (sn : Nat → Byte) (h : Hello)
    (hwf : h.well_formed) (hst : stored data 0 h.encode)
    (hdecl : (h.declared : Int) + 5 ≤ data_len)
    (hlen : (h.encode.length : Int) ≤ data_len) :
    ∃ rd1 rd2 rd3, hello_walk data data_len sn =
      if (h.encode.length : Int) ≥ data_len then
        Sum.inl (Outcome.null sn rd1 [Diag.no_extensions 128])
      else if ((h.encode.length + 1 : Nat) : Int) ≥ data_len then
        Sum.inl (Outcome.null sn rd2 [Diag.incomplete_header 136])
      else Sum.inr (h.encode.length + 1 + 1, rd3) := by
  obtain ⟨hv, hfix, hsid, hcs, hcm⟩ := hwf
  simp only [Hello.encode, stored_append, stored_cons, List.length_append, List.length_cons,
    List.length_nil, hfix, Nat.zero_add, Nat.reduceAdd, Hello.declared] at hst hlen hdecl ⊢
  obtain ⟨⟨⟨⟨⟨h0, h1, h2, h3, h4, h5, -⟩, -⟩, hs, -⟩, hc1, hc2, -⟩, hm, -⟩ := hst
  have f43 : (data 43).val = h.session_id.length := by
    rw [hs, byte_val, Nat.mod_eq_of_lt hsid]
  have fc1 : (data (43 + 1 + h.session_id.length)).val = h.cipher_suites.length / 256 := by
    rw [show 43 + 1 + h.session_id.length = 43 + (h.session_id.length + 1) by omega, hc1,
      byte_val]
    omega
  have fc2 : (data (43 + 1 + h.session_id.length + 1)).val = h.cipher_suites.length % 256 := by
    rw [show 43 + 1 + h.session_id.length + 1 = 43 + (h.session_id.length + 1) + 1 by omega,
      hc2, byte_val]
  have fm : (data (44 + h.session_id.length + 1 + 1 + ((h.cipher_suites.length / 256) <<< 8 +
      h.cipher_suites.length % 256))).val = h.compression.length := by
    rw [show 44 + h.session_id.length + 1 + 1 + ((h.cipher_suites.length / 256) <<< 8 +
      h.cipher_suites.length % 256) =
      43 + (h.session_id.length + 1) + (h.cipher_suites.length + 1 + 1) by omega, hm, byte_val,
      Nat.mod_eq_of_lt hcm]
  have e : 44 + h.session_id.length + 1 + 1 + ((h.cipher_suites.length / 256) <<< 8 +
      h.cipher_suites.length % 256) + 1 + h.compression.length =
      43 + (h.session_id.length + 1) + (h.cipher_suites.length + 1 + 1) +
        (h.compression.length + 1) := by omega
  unfold hello_walk
  dsimp only [TLS_HEADER_LEN, Nat.reduceAdd]
  rw [f43, fc1, fc2, fm, e]
  apply Exists.intro; apply Exists.intro; apply Exists.intro
  case h.h.h =>
    refine (if_neg ?_).trans ?_
    · omega
    refine (if_neg ?_).trans ?_
    · simp [h0, TLS_HANDSHAKE_CONTENT_TYPE]
    refine (if_neg ?_).trans ?_
    · rw [h1]; omega
    refine (if_neg ?_).trans ?_
    · rw [h1, h2]; omega
    refine (if_neg ?_).trans ?_
    · rw [h3, h4]; omega
    refine (if_neg ?_).trans ?_
    · omega
    refine (if_neg ?_).trans ?_
    · simp [h5, TLS_HANDSHAKE_TYPE_CLIENT_HELLO]
    refine (if_neg ?_).trans ?_
    · omega
    refine (if_neg ?_).trans ?_
    · omega
    refine (if_neg ?_).trans ?_
    · omega
    refine (if_neg ?_).trans ?_
    · omega
    rfl

/-- One iteration of the extension loop over a header that is not of type 0x0000. -/
theorem ext_loop_skip (data : Nat → Byte) (data_len : Int) (sn : Nat → Byte) (f p : Nat)
    (h1 : 1 ≤ f) (h2 : data_len - p ≤ 4 * (f : Int)) (hlt : ¬ ((p : Int) + 4 ≥ data_len))
    (hty : ¬ (data p = 0x00 ∧ data (p + 1) = 0x00)) :
    ext_loop data data_len sn f p =
      (ext_loop data data_len sn f (p + 4 + (((data (p + 2)).val <<< 8) + (data (p + 3)).val))).map
        (Outcome.after (header_reads data p) [] 0) := by
  rw [← ext_loop_succ data data_len sn f p h1 h2, ext_loop, if_neg hlt]
  dsimp only
  rw [if_neg hty]

/-- One iteration of the extension loop over a header of type 0x0000. -/
theorem ext_loop_server_name (data : Nat → Byte) (data_len : Int) (sn : Nat → Byte) (f p : Nat)
    (h1 : 1 ≤ f) (hlt : ¬ ((p : Int) + 4 ≥ data_len))
    (hty : data p = 0x00 ∧ data (p + 1) = 0x00) :
    ext_loop data data_len sn f p =
      if ((p + 4 : Nat) : Int) + ((((data (p + 2)).val <<< 8) + (data (p + 3)).val : Nat) : Int)
          > data_len then
        some (Outcome.null sn (header_reads data p) [Diag.incomplete_header 155])
      else
        (parse_server_name_extension (shift data (p + 4))
          ((((data (p + 2)).val <<< 8) + (data (p + 3)).val : Nat) : Int) sn).map
          (Outcome.after (header_reads data p) [] (p + 4)) := by
  obtain ⟨f, rfl⟩ : ∃ g, f = g + 1 := ⟨f - 1, by omega⟩
  rw [ext_loop, if_neg hlt]
  dsimp only
  rw [if_pos hty]

/-- The outcome of `parse_tls_header` is the outcome of its loop at any cursor the loop
arrives with, preceded by the reads made before. -/
theorem reaches_eq (data : Nat → Byte) (data_len : Int) (sn : Nat → Byte) (p : Nat)
    (hr : Reaches data data_len sn p) :
    6 ≤ data_len ∧ ∃ rd, parse_tls_header data data_len sn =
      (ext_loop data data_len sn data_len.toNat p).map (Outcome.after rd [] 0) := by
  induction hr with
  | first p rd hw =>
    have := hello_walk_inr data data_len sn p rd hw
    refine ⟨by omega, rd, ?_⟩
    unfold parse_tls_header
    rw [hw]
  | next p _ hlt hty ih =>
    obtain ⟨h6, rd, ih⟩ := ih
    refine ⟨h6, rd ++ header_reads data p, ?_⟩
    rw [ih, ext_loop_skip data data_len sn data_len.toNat p (by omega) (by omega) hlt hty,
      Option.map_map]
    congr 1
    funext o
    simp [after_after]

/-- The loop walks over a run of encoded extensions none of which has type 0x0000, provided
at least five bytes follow the run. -/
theorem reaches_extensions (data : Nat → Byte) (data_len : Int) (sn : Nat → Byte)
    (es : List Extension) (p : Nat) (hr : Reaches data data_len sn p)
    (hes : ∀ e ∈ es, e.fits ∧ ¬ e.is_server_name)
    (hst : stored data p (encode_extensions es))
    (hlen : ((p + (encode_extensions es).length + 4 : Nat) : Int) < data_len) :
    Reaches data data_len sn (p + (encode_extensions es).length) := by
  induction es generalizing p with
  | nil => simpa [encode_extensions] using hr
  | cons e es ih =>
    simp only [encode_extensions, Extension.encode, List.cons_append, stored_cons,
      stored_append, List.length_cons, List.length_append] at hst hlen ⊢
    obtain ⟨t0, t1, l0, l1, -, hrest⟩ := hst
    obtain ⟨hfit, hns⟩ := hes e (List.mem_cons_self _ _)
    unfold Extension.fits at hfit
    have hl : ((data (p + 2)).val <<< 8) + (data (p + 3)).val = e.payload.length := by
      rw [show p + 2 = p + 1 + 1 by omega, show p + 3 = p + 1 + 1 + 1 by omega, l0, l1,
        byte_val, byte_val]
      omega
    have hn := Reaches.next p hr (by omega)
      (by rw [t0, t1]; exact hns)
    rw [hl] at hn
    have := ih (p + 4 + e.payload.length) hn (fun e' he' => hes e' (List.mem_cons_of_mem _ he'))
      (by
        rw [show p + 4 + e.payload.length = p + 1 + 1 + 1 + 1 + e.payload.length by omega]
        exact hrest)
      (by omega)
    rw [show p + (e.payload.length + (encode_extensions es).length + 1 + 1 + 1 + 1) =
      p + 4 + e.payload.length + (encode_extensions es).length by omega]
    exact this

/-- One iteration of the name loop over an unknown name type: one byte is consumed. -/
theorem name_loop_unknown (buf : Nat → Byte) (buf_len : Int) (sn : Nat → Byte) (f p : Nat)
    (h1 : 1 ≤ f) (h2 : buf_len - p < (f : Int)) (hlt : ¬ ((p : Int) ≥ buf_len))
    (hty : ¬ (buf p = 0x00)) :
    name_loop buf buf_len sn f p =
      (name_loop buf buf_len sn f (p + 1)).map
        (Outcome.after [p] [Diag.unknown_name_type] 0) := by
  rw [← name_loop_succ buf buf_len sn f p h1 h2, name_loop, if_neg hlt]
  dsimp only
  rw [if_neg hty]

/-- The name loop over a run of non-zero bytes: each is consumed as an unknown name type. -/
theorem name_loop_unknowns (buf : Nat → Byte) (buf_len : Int) (sn : Nat → Byte) (f : Nat)
    (skipped : List Byte) (p : Nat) (h1 : 1 ≤ f) (h2 : buf_len - p < (f : Int))
    (hst : stored buf p skipped) (hnz : ∀ b ∈ skipped, b ≠ 0)
    (hlen : ((p + skipped.length : Nat) : Int) ≤ buf_len) :
    ∃ rd, name_loop buf buf_len sn f p =
      (name_loop buf buf_len sn f (p + skipped.length)).map
        (Outcome.after rd (List.replicate skipped.length Diag.unknown_name_type) 0) := by
  induction skipped generalizing p with
  | nil =>
    refine ⟨[], ?_⟩
    have : Outcome.after [] [] 0 = id := by
      funext o
      simp [Outcome.after]
    simp [this]
  | cons b bs ih =>
    simp only [stored_cons, List.length_cons] at hst hlen
    obtain ⟨hb, hbs⟩ := hst
    obtain ⟨rd, ih⟩ := ih (p + 1) (by push_cast; omega) hbs
      (fun b' hb' => hnz b' (List.mem_cons_of_mem _ hb')) (by push_cast at hlen ⊢; omega)
    refine ⟨[p] ++ rd, ?_⟩
    rw [name_loop_unknown buf buf_len sn f p h1 h2 (by push_cast at hlen; omega)
      (by rw [hb]; exact hnz b (List.mem_cons_self _ _)), ih, Option.map_map]
    rw [show p + 1 + bs.length = p + (b :: bs).length by simp; omega]
    congr 1
    funext o
    simp [after_after, List.replicate_succ]

/-- One iteration of the name loop over a host_name entry (name type 0x00). -/
theorem name_loop_host (buf : Nat → Byte) (buf_len : Int) (sn : Nat → Byte) (f p : Nat)
    (h1 : 1 ≤ f) (hlt : ¬ ((p : Int) ≥ buf_len)) (hty : buf p = 0x00)
    (hfit : ((p + 3 + (((buf (p + 1)).val <<< 8) + (buf (p + 1 + 1)).val) : Nat) : Int) ≤ buf_len) :
    name_loop buf buf_len sn f p =
      if ((buf (p + 1)).val <<< 8) + (buf (p + 1 + 1)).val ≥ SERVER_NAME_LEN - 1 then
        some (Outcome.null sn [p, p + 1, p + 1 + 1] [Diag.name_too_long])
      else
        some { ret := true
               server_name := poke (store sn (strncpy_image buf (p + 1 + 2)
                 (((buf (p + 1)).val <<< 8) + (buf (p + 1 + 1)).val)))
                 (((buf (p + 1)).val <<< 8) + (buf (p + 1 + 1)).val) 0
               reads := [p, p + 1, p + 1 + 1] ++ strncpy_reads buf (p + 1 + 2)
                 (((buf (p + 1)).val <<< 8) + (buf (p + 1 + 1)).val)
               writes := List.range (((buf (p + 1)).val <<< 8) + (buf (p + 1 + 1)).val) ++
                 [((buf (p + 1)).val <<< 8) + (buf (p + 1 + 1)).val]
               log := [] } := by
  obtain ⟨f, rfl⟩ : ∃ g, f = g + 1 := ⟨f - 1, by omega⟩
  rw [name_loop, if_neg hlt]
  dsimp only
  rw [if_pos hty, if_neg (by push_cast at hfit ⊢; omega), if_neg (by push_cast at hfit ⊢; omega)]

/-- Copying a stored name without a zero byte with `strncpy` copies all of it. -/
theorem strncpy_image_stored (buf : Nat → Byte) (name : List Byte) (p : Nat)
    (hst : stored buf p name) (hnz : ∀ b ∈ name, b ≠ 0) :
    strncpy_image buf p name.length = name := by
  induction name generalizing p with
  | nil => rfl
  | cons b bs ih =>
    simp only [stored_cons] at hst
    obtain ⟨hb, hbs⟩ := hst
    rw [List.length_cons, strncpy_image, if_neg (by rw [hb]; exact hnz b (List.mem_cons_self _ _)),
      hb, ih (p + 1) hbs (fun b' hb' => hnz b' (List.mem_cons_of_mem _ hb'))]

theorem strncpy_image_length (buf : Nat → Byte) (p n : Nat) :
    (strncpy_image buf p n).length = n := by
  induction n generalizing p with
  | zero => rfl
  | succ n ih =>
    rw [strncpy_image]
    split
    · simp
    · simp [ih]

/-- After `strncpy` of `n` bytes and the store of the terminator at index `n`, the first `n`
bytes of the array are the bytes copied. -/
theorem bytes_poke_store (sn : Nat → Byte) (img : List Byte) (b : Byte) :
    bytes (poke (store sn img) img.length b) img.length = img := by
  apply List.ext_getElem
  · simp [bytes]
  · intro i h1 h2
    simp only [bytes, List.length_map, List.length_range] at h1
    simp [bytes, poke, store, Nat.ne_of_lt h1, h1]

theorem poke_self (m : Nat → Byte) (k : Nat) (b : Byte) : poke m k b k = b := by
  simp [poke]

/-- Outside the indices `0 .. k`, a store of `k` bytes and of a terminator at `k` changes
nothing. -/
theorem poke_store_above (sn : Nat → Byte) (img : List Byte) (b : Byte) (i : Nat)
    (h : img.length < i) : poke (store sn img) img.length b i = sn i := by
  simp [poke, store, Nat.ne_of_gt h, Nat.not_lt.mpr (Nat.le_of_lt h)]

/-- The decoder on a payload that holds the two bytes of the list length, a run of non-zero
bytes, and a host_name entry whose name fits the payload. -/
theorem parse_server_name_extension_entry (buf : Nat → Byte) (buf_len : Int)
    (sn : Nat → Byte) (l0 l1 : Byte) (skipped name : List Byte)
    (hst : stored buf 0
      (l0 :: l1 :: skipped ++ 0x00 :: byte (name.length / 256) :: byte name.length :: name))
    (hnz : ∀ b ∈ skipped, b ≠ 0) (hL : name.length < 65536)
    (hlen : ((5 + skipped.length + name.length : Nat) : Int) ≤ buf_len) :
    ∃ rd1 rd2, parse_server_name_extension buf buf_len sn =
      if name.length ≥ SERVER_NAME_LEN - 1 then
        some (Outcome.null sn rd1
          (List.replicate skipped.length Diag.unknown_name_type ++ [Diag.name_too_long]))
      else
        some { ret := true
               server_name := poke (store sn
                 (strncpy_image buf (5 + skipped.length) name.length)) name.length 0
               reads := rd2
               writes := List.range name.length ++ [name.length]
               log := List.replicate skipped.length Diag.unknown_name_type } := by
  simp only [List.cons_append, stored_cons, stored_append, Nat.zero_add, Nat.reduceAdd,
    List.length_cons] at hst
  obtain ⟨-, -, hsk, ht, hh, hl, hname⟩ := hst
  have hnl : ((buf (2 + skipped.length + 1)).val <<< 8) + (buf (2 + skipped.length + 1 + 1)).val
      = name.length := by
    rw [hh, hl, byte_val, byte_val]
    omega
  obtain ⟨rd, hun⟩ := name_loop_unknowns buf buf_len sn buf_len.toNat skipped 2
    (by omega) (by omega) hsk hnz (by omega)
  have hho := name_loop_host buf buf_len sn buf_len.toNat (2 + skipped.length)
    (by omega) (by omega) ht (by rw [hnl]; omega)
  rw [hnl] at hho
  unfold parse_server_name_extension
  dsimp only
  rw [if_neg (by omega), show 0 + 2 = 2 from rfl, hun, hho, Option.map_map]
  by_cases hbig : name.length ≥ SERVER_NAME_LEN - 1
  · simp only [if_pos hbig]
    exact ⟨_, [], rfl⟩
  · simp only [if_neg hbig]
    rw [show 5 + skipped.length = 2 + skipped.length + 1 + 2 by omega]
    refine ⟨[], ([0, 1] ++ rd) ++ ([2 + skipped.length, 2 + skipped.length + 1,
      2 + skipped.length + 1 + 1] ++
      strncpy_reads buf (2 + skipped.length + 1 + 2) name.length).map (0 + ·), ?_⟩
    simp [Outcome.after]

theorem stored_shift (m : Nat → Byte) (k off : Nat) (bs : List Byte) :
    stored (shift m k) off bs ↔ stored m (k + off) bs := by
  unfold stored shift
  simp only [Nat.add_assoc]

theorem encode_extensions_append (es fs : List Extension) :
    encode_extensions (es ++ fs) = encode_extensions es ++ encode_extensions fs := by
  induction es with
  | nil => rfl
  | cons e es ih => simp [encode_extensions, ih]

/-- A well-formed record prefix followed by at least the two bytes of the extensions length:
the loop is entered right after those two bytes. -/
theorem reaches_first_extension (data : Nat → Byte) (data_len : Int) (sn : Nat → Byte)
    (h : Hello) (hwf : h.well_formed) (hst : stored data 0 h.encode)
    (hdecl : (h.declared : Int) + 5 ≤ data_len)
    (hlen : ((h.encode.length + 1 : Nat) : Int) < data_len) :
    Reaches data data_len sn (h.encode.length + 1 + 1) := by
  obtain ⟨rd1, rd2, rd3, hw⟩ := hello_walk_stored data data_len sn h hwf hst hdecl
    (by push_cast at hlen ⊢; omega)
  rw [if_neg (by push_cast at hlen ⊢; omega), if_neg (by push_cast at hlen ⊢; omega)] at hw
  exact Reaches.first _ rd3 hw


/-- The extension loop over a run of encoded extensions, none of type 0x0000, that ends
exactly at `data_len`: NULL by the check of line 143. -/
theorem ext_loop_no_server_name (data : Nat → Byte) (data_len : Int) (sn : Nat → Byte)
    (f : Nat) (es : List Extension) (p : Nat) (h1 : 1 ≤ f) (h2 : data_len - p ≤ 4 * (f : Int))
    (hes : ∀ e ∈ es, e.fits ∧ ¬ e.is_server_name)
    (hst : stored data p (encode_extensions es))
    (hlen : data_len = ((p + (encode_extensions es).length : Nat) : Int)) :
    ∃ rd, ext_loop data data_len sn f p =
      some (Outcome.null sn rd [Diag.no_more_extensions 144]) := by
  induction es generalizing p with
  | nil =>
    obtain ⟨f, rfl⟩ : ∃ g, f = g + 1 := ⟨f - 1, by omega⟩
    simp only [encode_extensions, List.length_nil, Nat.add_zero] at hlen
    rw [ext_loop, if_pos (by omega)]
    exact ⟨[], rfl⟩
  | cons e es ih =>
    by_cases hlt : (p : Int) + 4 ≥ data_len
    · obtain ⟨f, rfl⟩ : ∃ g, f = g + 1 := ⟨f - 1, by omega⟩
      rw [ext_loop, if_pos hlt]
      exact ⟨[], rfl⟩
    · simp only [encode_extensions, Extension.encode, List.cons_append, stored_cons,
        stored_append, List.length_cons, List.length_append] at hst hlen
      obtain ⟨t0, t1, l0, l1, -, hrest⟩ := hst
      obtain ⟨hfit, hns⟩ := hes e (List.mem_cons_self _ _)
      unfold Extension.fits at hfit
      have hl : ((data (p + 2)).val <<< 8) + (data (p + 3)).val = e.payload.length := by
        rw [show p + 2 = p + 1 + 1 by omega, show p + 3 = p + 1 + 1 + 1 by omega, l0, l1,
          byte_val, byte_val]
        omega
      rw [ext_loop_skip data data_len sn f p h1 h2 hlt (by rw [t0, t1]; exact hns), hl]
      obtain ⟨rd, ih⟩ := ih (p + 4 + e.payload.length) (by push_cast; omega)
        (fun e' he' => hes e' (List.mem_cons_of_mem _ he'))
        (by
          rw [show p + 4 + e.payload.length = p + 1 + 1 + 1 + 1 + e.payload.length by omega]
          exact hrest)
        (by rw [hlen]; push_cast; omega)
      rw [ih]
      exact ⟨_, rfl⟩

/-- `strncpy` depends only on the source bytes in the window it may copy. -/
theorem strncpy_congr (b1 b2 : Nat → Byte) (off n : Nat)
    (h : ∀ i, off ≤ i → i < off + n → b1 i = b2 i) :
    strncpy_image b1 off n = strncpy_image b2 off n ∧
    strncpy_reads b1 off n = strncpy_reads b2 off n := by
  induction n generalizing off with
  | zero => exact ⟨rfl, rfl⟩
  | succ n ih =>
    have e := h off (Nat.le_refl _) (by omega)
    obtain ⟨i1, i2⟩ := ih (off + 1) (fun i h1 h2 => h i (by omega) (by omega))
    rw [strncpy_image, strncpy_image, strncpy_reads, strncpy_reads, e, i1, i2]
    exact ⟨rfl, rfl⟩

/-- The name loop depends only on the bytes of its payload: the byte it may read at offset
`buf_len` never changes its outcome. -/
theorem name_loop_congr (b1 b2 : Nat → Byte) (buf_len : Int) (sn : Nat → Byte) (f p : Nat)
    (h : ∀ i : Nat, (i : Int) < buf_len → b1 i = b2 i) :
    name_loop b1 buf_len sn f p = name_loop b2 buf_len sn f p := by
  induction f generalizing p with
  | zero => rfl
  | succ f ih =>
    rw [name_loop, name_loop]
    by_cases hp : (p : Int) ≥ buf_len
    · simp only [if_pos hp]
    simp only [if_neg hp]
    rw [← h p (by omega)]
    by_cases ht : b1 p = 0x00
    · simp only [if_pos ht]
      by_cases h1 : ((p + 1 : Nat) : Int) + 1 > buf_len
      · simp only [if_pos h1]
      simp only [if_neg h1]
      rw [← h (p + 1) (by push_cast at h1 ⊢; omega)]
      by_cases hlast : ((p + 1 + 1 : Nat) : Int) < buf_len
      · rw [← h (p + 1 + 1) hlast]
        by_cases h2 : ((p + 1 + 2 : Nat) : Int) +
            ((((b1 (p + 1)).val <<< 8) + (b1 (p + 1 + 1)).val : Nat) : Int) > buf_len
        · simp only [if_pos h2]
        simp only [if_neg h2]
        obtain ⟨e1, e2⟩ := strncpy_congr b1 b2 (p + 1 + 2)
          (((b1 (p + 1)).val <<< 8) + (b1 (p + 1 + 1)).val)
          (fun i _ hi => h i (by push_cast at h2 ⊢; omega))
        rw [e1, e2]
      · rw [if_pos (by push_cast at hlast h1 ⊢; omega),
          if_pos (by push_cast at hlast h1 ⊢; omega)]
    · simp only [if_neg ht]
      rw [ih]

/-- The decoder depends only on the bytes of its payload. -/
theorem parse_server_name_extension_congr (b1 b2 : Nat → Byte) (buf_len : Int)
    (sn : Nat → Byte) (h : ∀ i : Nat, (i : Int) < buf_len → b1 i = b2 i) :
    parse_server_name_extension b1 buf_len sn = parse_server_name_extension b2 buf_len sn := by
  unfold parse_server_name_extension
  dsimp only
  rw [name_loop_congr b1 b2 buf_len sn _ _ h]

/-- The extension loop entered at `p` depends only on the bytes from `p` to the end of the
buffer. -/
theorem ext_loop_congr (d1 d2 : Nat → Byte) (data_len : Int) (sn : Nat → Byte) (f p : Nat)
    (h : ∀ i : Nat, p ≤ i → (i : Int) < data_len → d1 i = d2 i) :
    ext_loop d1 data_len sn f p = ext_loop d2 data_len sn f p := by
  induction f generalizing p with
  | zero => rfl
  | succ f ih =>
    rw [ext_loop, ext_loop]
    by_cases hp : (p : Int) + 4 ≥ data_len
    · simp only [if_pos hp]
    simp only [if_neg hp]
    have e0 := h p (by omega) (by omega)
    have e1 := h (p + 1) (by omega) (by push_cast; omega)
    have e2 := h (p + 2) (by omega) (by push_cast; omega)
    have e3 := h (p + 3) (by omega) (by push_cast; omega)
    have eh : header_reads d1 p = header_reads d2 p := by
      unfold header_reads
      rw [e0]
    rw [← e0, ← e1, ← e2, ← e3, ← eh]
    by_cases ht : d1 p = 0x00 ∧ d1 (p + 1) = 0x00
    · simp only [if_pos ht]
      by_cases hfit : ((p + 4 : Nat) : Int) +
          ((((d1 (p + 2)).val <<< 8) + (d1 (p + 3)).val : Nat) : Int) > data_len
      · simp only [if_pos hfit]
      simp only [if_neg hfit]
      rw [parse_server_name_extension_congr (shift d1 (p + 4)) (shift d2 (p + 4)) _ sn
        (fun i hi => h (p + 4 + i) (by omega) (by push_cast at hfit hi ⊢; omega))]
    · simp only [if_neg ht]
      rw [ih _ (fun i hi1 hi2 => h i (by omega) hi2)]

theorem ite_congr_of {α : Type} {c1 c2 : Prop} [Decidable c1] [Decidable c2] {a1 a2 b1 b2 : α}
    (hc : c1 ↔ c2) (ha : a1 = a2) (hb : ¬ c1 → b1 = b2) :
    (if c1 then a1 else b1) = (if c2 then a2 else b2) := by
  by_cases h : c1
  · rw [if_pos h, if_pos (hc.mp h), ha]
  · rw [if_neg h, if_neg (fun h2 => h (hc.mpr h2)), hb h]

/-- The walk of lines 45-140 depends only on the bytes it tests: those inside the buffer and
before the extensions length field, the record length bytes counting only through the check of
line 68. -/
theorem hello_walk_congr (d1 d2 : Nat → Byte) (data_len : Int) (sn : Nat → Byte)
    (hag : ∀ i : Nat, (i : Int) < data_len → i < extensions_length_offset d1 →
      i ≠ 3 → i ≠ 4 → d1 i = d2 i)
    (hlen : 5 ≤ data_len →
      (data_len < (declared_length d1 : Int) + 5 ↔ data_len < (declared_length d2 : Int) + 5)) :
    hello_walk d1 data_len sn = hello_walk d2 data_len sn := by
  have hq : extensions_length_offset d1 = 44 + (d1 43).val + 1 + 1 +
    (((d1 (44 + (d1 43).val)).val <<< 8) + (d1 (44 + (d1 43).val + 1)).val) + 1 +
    (d1 (44 + (d1 43).val + 1 + 1 +
      (((d1 (44 + (d1 43).val)).val <<< 8) + (d1 (44 + (d1 43).val + 1)).val))).val := rfl
  unfold declared_length at hlen
  unfold hello_walk
  dsimp only [TLS_HEADER_LEN, Nat.reduceAdd]
  refine ite_congr_of Iff.rfl rfl (fun h1 => ?_)
  rw [← hag 0 (by omega) (by omega) (by omega) (by omega),
    ← hag 1 (by omega) (by omega) (by omega) (by omega),
    ← hag 2 (by omega) (by omega) (by omega) (by omega)]
  refine ite_congr_of Iff.rfl rfl (fun h2 => ?_)
  refine ite_congr_of Iff.rfl rfl (fun h3 => ?_)
  refine ite_congr_of Iff.rfl rfl (fun h4 => ?_)
  refine ite_congr_of (by have := hlen (by omega); omega) rfl (fun h5 => ?_)
  refine ite_congr_of Iff.rfl rfl (fun h6 => ?_)
  rw [← hag 5 (by omega) (by omega) (by omega) (by omega)]
  refine ite_congr_of Iff.rfl rfl (fun h7 => ?_)
  refine ite_congr_of Iff.rfl rfl (fun h8 => ?_)
  rw [← hag 43 (by omega) (by omega) (by omega) (by omega)]
  refine ite_congr_of Iff.rfl rfl (fun h9 => ?_)
  rw [← hag (44 + (d1 43).val) (by omega) (by omega) (by omega) (by omega)]
  refine ite_congr_of Iff.rfl rfl (fun h10 => ?_)
  rw [← hag (44 + (d1 43).val + 1) (by omega) (by omega) (by omega) (by omega)]
  refine ite_congr_of Iff.rfl rfl (fun h11 => ?_)
  rw [← hag (44 + (d1 43).val + 1 + 1 +
      (((d1 (44 + (d1 43).val)).val <<< 8) + (d1 (44 + (d1 43).val + 1)).val))
    (by omega) (by omega) (by omega) (by omega)]

/-- When the walk of lines 45-140 enters the loop, the cursor is two bytes past the offset of
the extensions length field. -/
theorem hello_walk_inr_offset (data : Nat → Byte) (data_len : Int) (sn : Nat → Byte) (p : Nat)
    (rd : List Nat) (hw : hello_walk data data_len sn = Sum.inr (p, rd)) :
    p = extensions_length_offset data + 2 := by
  unfold hello_walk at hw
  obtain ⟨h1, hw⟩ := ite_inl_ne_inr hw
  obtain ⟨h2, hw⟩ := ite_inl_ne_inr hw
  obtain ⟨h3, hw⟩ := ite_inl_ne_inr hw
  obtain ⟨h4, hw⟩ := ite_inl_ne_inr hw
  obtain ⟨h5, hw⟩ := ite_inl_ne_inr hw
  obtain ⟨h6, hw⟩ := ite_inl_ne_inr hw
  obtain ⟨h7, hw⟩ := ite_inl_ne_inr hw
  obtain ⟨h8, hw⟩ := ite_inl_ne_inr hw
  obtain ⟨h9, hw⟩ := ite_inl_ne_inr hw
  obtain ⟨h10, hw⟩ := ite_inl_ne_inr hw
  obtain ⟨h11, hw⟩ := ite_inl_ne_inr hw
  obtain ⟨h12, hw⟩ := ite_inl_ne_inr hw
  obtain ⟨h13, hw⟩ := ite_inl_ne_inr hw
  simp only [Sum.inr.injEq, Prod.mk.injEq] at hw
  obtain ⟨rfl, -⟩ := hw
  simp only [extensions_length_offset, TLS_HEADER_LEN]

/-- Two memories on which the walk of lines 45-140 does the same and which agree inside the
buffer from the first extension header on give the same outcome. -/
theorem parse_tls_header_congr (d1 d2 : Nat → Byte) (data_len : Int) (sn : Nat → Byte)
    (hw : hello_walk d1 data_len sn = hello_walk d2 data_len sn)
    (hag : ∀ i : Nat, extensions_length_offset d1 + 2 ≤ i → (i : Int) < data_len →
      d1 i = d2 i) :
    parse_tls_header d1 data_len sn = parse_tls_header d2 data_len sn := by
  unfold parse_tls_header
  rw [← hw]
  cases hc : hello_walk d1 data_len sn with
  | inl o => rfl
  | inr x =>
    obtain ⟨p, rd⟩ := x
    have hp := hello_walk_inr_offset d1 data_len sn p rd hc
    dsimp only
    rw [ext_loop_congr d1 d2 data_len sn _ p (fun i h1 h2 => hag i (by omega) h2)]

theorem extensions_length_offset_ge (data : Nat → Byte) :
    47 ≤ extensions_length_offset data := by
  unfold extensions_length_offset
  omega

theorem disciplined_null (sn : Nat → Byte) (rd : List Nat) (lg : List Diag) :
    (Outcome.null sn rd lg).disciplined sn := by
  unfold Outcome.disciplined
  exact ⟨fun _ => ⟨rfl, rfl⟩, fun h => (by cases h), fun i hi => (by cases hi), fun _ _ => rfl⟩

theorem disciplined_after (sn : Nat → Byte) (rd : List Nat) (lg : List Diag) (b : Nat)
    (o : Outcome) (h : o.disciplined sn) : (Outcome.after rd lg b o).disciplined sn := h

theorem name_loop_disciplined (buf : Nat → Byte) (buf_len : Int) (sn : Nat → Byte)
    (f p : Nat) (o : Outcome) (h : name_loop buf buf_len sn f p = some o) :
    o.disciplined sn := by
  induction f generalizing p o with
  | zero => cases h
  | succ f ih =>
    rw [name_loop] at h
    dsimp only at h
    by_cases hp : (p : Int) ≥ buf_len
    · rw [if_pos hp, Option.some.injEq] at h
      subst h; exact disciplined_null _ _ _
    rw [if_neg hp] at h
    by_cases ht : buf p = 0x00
    · rw [if_pos ht] at h
      by_cases h1 : ((p + 1 : Nat) : Int) + 1 > buf_len
      · rw [if_pos h1, Option.some.injEq] at h
        subst h; exact disciplined_null _ _ _
      rw [if_neg h1] at h
      by_cases h2 : ((p + 1 + 2 : Nat) : Int) +
          ((((buf (p + 1)).val <<< 8) + (buf (p + 1 + 1)).val : Nat) : Int) > buf_len
      · rw [if_pos h2, Option.some.injEq] at h
        subst h; exact disciplined_null _ _ _
      rw [if_neg h2] at h
      by_cases h3 : ((buf (p + 1)).val <<< 8) + (buf (p + 1 + 1)).val ≥ SERVER_NAME_LEN - 1
      · rw [if_pos h3, Option.some.injEq] at h
        subst h; exact disciplined_null _ _ _
      rw [if_neg h3, Option.some.injEq] at h
      subst h
      unfold SERVER_NAME_LEN at h3
      unfold Outcome.disciplined SERVER_NAME_LEN
      refine ⟨fun hr => (by cases hr), fun _ => ⟨_, (by omega), rfl⟩, ?_, ?_⟩
      · intro i hi
        simp only [List.mem_append, List.mem_range, List.mem_singleton] at hi
        omega
      · intro i hi
        have hl := strncpy_image_length buf (p + 1 + 2)
          (((buf (p + 1)).val <<< 8) + (buf (p + 1 + 1)).val)
        have := poke_store_above sn (strncpy_image buf (p + 1 + 2)
          (((buf (p + 1)).val <<< 8) + (buf (p + 1 + 1)).val)) 0 i (by omega)
        rw [hl] at this
        exact this
    · rw [if_neg ht] at h
      obtain ⟨o', ho', rfl⟩ := Option.map_eq_some'.mp h
      exact disciplined_after _ _ _ _ _ (ih _ _ ho')

theorem parse_server_name_extension_disciplined (buf : Nat → Byte) (buf_len : Int)
    (sn : Nat → Byte) (o : Outcome) (h : parse_server_name_extension buf buf_len sn = some o) :
    o.disciplined sn := by
  unfold parse_server_name_extension at h
  dsimp only at h
  by_cases h1 : ((0 : Nat) : Int) + 1 > buf_len
  · rw [if_pos h1, Option.some.injEq] at h
    subst h; exact disciplined_null _ _ _
  · rw [if_neg h1] at h
    obtain ⟨o', ho', rfl⟩ := Option.map_eq_some'.mp h
    exact disciplined_after _ _ _ _ _ (name_loop_disciplined _ _ _ _ _ _ ho')

theorem ext_loop_disciplined (data : Nat → Byte) (data_len : Int) (sn : Nat → Byte)
    (f p : Nat) (o : Outcome) (h : ext_loop data data_len sn f p = some o) :
    o.disciplined sn := by
  induction f generalizing p o with
  | zero => cases h
  | succ f ih =>
    rw [ext_loop] at h
    dsimp only at h
    by_cases hp : (p : Int) + 4 ≥ data_len
    · rw [if_pos hp, Option.some.injEq] at h
      subst h; exact disciplined_null _ _ _
    rw [if_neg hp] at h
    by_cases ht : data p = 0x00 ∧ data (p + 1) = 0x00
    · rw [if_pos ht] at h
      by_cases hfit : ((p + 4 : Nat) : Int) +
          ((((data (p + 2)).val <<< 8) + (data (p + 3)).val : Nat) : Int) > data_len
      · rw [if_pos hfit, Option.some.injEq] at h
        subst h; exact disciplined_null _ _ _
      rw [if_neg hfit] at h
      obtain ⟨o', ho', rfl⟩ := Option.map_eq_some'.mp h
      exact disciplined_after _ _ _ _ _ (parse_server_name_extension_disciplined _ _ _ _ ho')
    · rw [if_neg ht] at h
      obtain ⟨o', ho', rfl⟩ := Option.map_eq_some'.mp h
      exact disciplined_after _ _ _ _ _ (ih _ _ ho')

theorem parse_tls_header_disciplined (data : Nat → Byte) (data_len : Int) (sn : Nat → Byte)
    (o : Outcome) (h : parse_tls_header data data_len sn = some o) : o.disciplined sn := by
  unfold parse_tls_header at h
  cases hc : hello_walk data data_len sn with
  | inl o' =>
    rw [hc] at h
    simp only [Option.some.injEq] at h
    subst h
    obtain ⟨h1, h2, h3, -⟩ := hello_walk_inl data data_len sn o' hc
    unfold Outcome.disciplined
    refine ⟨fun _ => ⟨h2, h3⟩, fun hr => (by rw [h1] at hr; cases hr), ?_,
      fun _ _ => (by rw [h2])⟩
    intro i hi
    rw [h3] at hi
    cases hi
  | inr x =>
    obtain ⟨p, rd⟩ := x
    rw [hc] at h
    obtain ⟨o', ho', rfl⟩ := Option.map_eq_some'.mp h
    exact disciplined_after _ _ _ _ _ (ext_loop_disciplined _ _ _ _ _ _ ho')

/-- After the check of line 143 the four header bytes are inside the buffer. -/
theorem header_reads_inside (data : Nat → Byte) (data_len : Int) (p : Nat)
    (hp : ¬ ((p : Int) + 4 ≥ data_len)) : ∀ i ∈ header_reads data p, (i : Int) < data_len := by
  intro i hi
  unfold header_reads at hi
  split at hi
  · simp only [List.cons_append, List.nil_append, List.mem_cons, List.mem_singleton,
      List.not_mem_nil, or_false] at hi
    omega
  · simp only [List.append_nil, List.mem_cons, List.mem_singleton, List.not_mem_nil,
      or_false] at hi
    omega

/-- The extension loop either runs out of fuel, or returns NULL itself after reading inside
the buffer only, or returns what the decoder returns for a payload inside the buffer, after
reading inside the buffer only. -/
theorem ext_loop_own_reads (data : Nat → Byte) (data_len : Int) (sn : Nat → Byte)
    (f p : Nat) :
    ext_loop data data_len sn f p = none ∨
    ∃ own : List Nat, (∀ i ∈ own, (i : Int) < data_len) ∧
      ((∃ lg, ext_loop data data_len sn f p = some (Outcome.null sn own lg)) ∨
       (∃ q n : Nat, ((q + n : Nat) : Int) ≤ data_len ∧
          ext_loop data data_len sn f p =
            (parse_server_name_extension (shift data q) (n : Int) sn).map
              (Outcome.after own [] q))) := by
  induction f generalizing p with
  | zero => exact Or.inl rfl
  | succ f ih =>
    rw [ext_loop]
    dsimp only
    by_cases hp : (p : Int) + 4 ≥ data_len
    · rw [if_pos hp]
      exact Or.inr ⟨[], fun i hi => (by cases hi), Or.inl ⟨_, rfl⟩⟩
    rw [if_neg hp]
    have hh := header_reads_inside data data_len p hp
    by_cases ht : data p = 0x00 ∧ data (p + 1) = 0x00
    · rw [if_pos ht]
      by_cases hfit : ((p + 4 : Nat) : Int) +
          ((((data (p + 2)).val <<< 8) + (data (p + 3)).val : Nat) : Int) > data_len
      · rw [if_pos hfit]
        exact Or.inr ⟨_, hh, Or.inl ⟨_, rfl⟩⟩
      · rw [if_neg hfit]
        exact Or.inr ⟨_, hh, Or.inr ⟨p + 4, _, (by push_cast at hfit ⊢; omega), rfl⟩⟩
    · rw [if_neg ht]
      rcases ih (p + 4 + (((data (p + 2)).val <<< 8) + (data (p + 3)).val)) with
        h0 | ⟨own, hown, ⟨lg, h1⟩ | ⟨q, n, hq, h2⟩⟩
      · rw [h0]; exact Or.inl rfl
      · rw [h1]
        refine Or.inr ⟨header_reads data p ++ own.map (0 + ·), ?_, Or.inl ⟨[] ++ lg, rfl⟩⟩
        intro i hi
        simp only [List.mem_append, List.mem_map, Nat.zero_add, exists_eq_right] at hi
        rcases hi with hi | hi
        · exact hh i hi
        · exact hown i hi
      · rw [h2, Option.map_map]
        refine Or.inr ⟨header_reads data p ++ own, ?_, Or.inr ⟨q, n, hq, ?_⟩⟩
        · intro i hi
          simp only [List.mem_append] at hi
          rcases hi with hi | hi
          · exact hh i hi
          · exact hown i hi
        · congr 1
          funext o
          simp [after_after]

/-- The extension loop at a cursor with at most four bytes left returns NULL. -/
theorem ext_loop_end (data : Nat → Byte) (data_len : Int) (sn : Nat → Byte) (f p : Nat)
    (h1 : 1 ≤ f) (hp : (p : Int) + 4 ≥ data_len) :
    ext_loop data data_len sn f p =
      some (Outcome.null sn [] [Diag.no_more_extensions 144]) := by
  obtain ⟨f, rfl⟩ : ∃ g, f = g + 1 := ⟨f - 1, by omega⟩
  rw [ext_loop, if_pos hp]

/-- Two memories that agree inside the buffer below a cursor the loop arrives with: the loop
arrives with that cursor on both, after the same reads. -/
theorem reaches_eq_congr (d1 d2 : Nat → Byte) (data_len : Int) (sn : Nat → Byte) (p : Nat)
    (hr : Reaches d1 data_len sn p)
    (hag : ∀ i : Nat, i < p → (i : Int) < data_len → d1 i = d2 i) :
    6 ≤ data_len ∧ ∃ rd,
      parse_tls_header d1 data_len sn =
        (ext_loop d1 data_len sn data_len.toNat p).map (Outcome.after rd [] 0) ∧
      parse_tls_header d2 data_len sn =
        (ext_loop d2 data_len sn data_len.toNat p).map (Outcome.after rd [] 0) := by
  induction hr with
  | first p rd hw =>
    have hi := hello_walk_inr d1 data_len sn p rd hw
    have hp := hello_walk_inr_offset d1 data_len sn p rd hw
    have hw2 : hello_walk d2 data_len sn = Sum.inr (p, rd) := by
      rw [← hw]
      symm
      apply hello_walk_congr
      · intro i h1 h2 _ _
        exact hag i (by omega) h1
      · intro h5
        unfold declared_length
        rw [hag 3 (by omega) (by omega), hag 4 (by omega) (by omega)]
    refine ⟨by omega, rd, ?_, ?_⟩
    · unfold parse_tls_header
      rw [hw]
    · unfold parse_tls_header
      rw [hw2]
  | next p _ hlt hty ih =>
    obtain ⟨h6, rd, ih1, ih2⟩ := ih (fun i h1 h2 => hag i (by omega) h2)
    have e0 := hag p (by omega) (by omega)
    have e1 := hag (p + 1) (by omega) (by push_cast; omega)
    have e2 := hag (p + 2) (by omega) (by push_cast; omega)
    have e3 := hag (p + 3) (by omega) (by push_cast; omega)
    have eh : header_reads d1 p = header_reads d2 p := by
      unfold header_reads
      rw [e0]
    refine ⟨h6, rd ++ header_reads d1 p, ?_, ?_⟩
    · rw [ih1, ext_loop_skip d1 data_len sn data_len.toNat p (by omega) (by omega) hlt hty,
        Option.map_map]
      congr 1
      funext o
      simp [after_after]
    · rw [ih2, ext_loop_skip d2 data_len sn data_len.toNat p (by omega) (by omega) hlt
        (by rw [← e0, ← e1]; exact hty), Option.map_map, ← e2, ← e3, ← eh]
      congr 1
      funext o
      simp [after_after]

theorem after_null (sn : Nat → Byte) (r rd : List Nat) (lg : List Diag) :
    Outcome.after r [] 0 (Outcome.null sn rd lg) = Outcome.null sn (r ++ rd) lg := by
  simp [Outcome.after, Outcome.null]

theorem examined_extensions_cons (e : Extension) (es : List Extension)
    (h : ¬ (e.payload = [] ∧ es = [])) :
    examined_extensions (e :: es) = e :: examined_extensions es := by
  cases es with
  | nil =>
    have he : ¬ e.payload = [] := fun he => h ⟨he, rfl⟩
    simp [examined_extensions, he]
  | cons e' es' => rfl

theorem encode_extensions_length (e : Extension) (es : List Extension) :
    (encode_extensions (e :: es)).length =
      4 + e.payload.length + (encode_extensions es).length := by
  simp [encode_extensions, Extension.encode]
  omega

/-- The extension loop over a run of encoded extensions, none of type 0x0000, that ends
exactly at `data_len`: it examines and skips each of them, except a last one with an empty
payload, and then returns NULL at the check of line 143 with at most four bytes left. -/
theorem ext_loop_examined (data : Nat → Byte) (data_len : Int) (sn : Nat → Byte)
    (f : Nat) (es : List Extension) (p : Nat) (h1 : 1 ≤ f) (h2 : data_len - p ≤ 4 * (f : Int))
    (hes : ∀ e ∈ es, e.fits ∧ ¬ e.is_server_name)
    (hst : stored data p (encode_extensions es))
    (hlen : data_len = ((p + (encode_extensions es).length : Nat) : Int)) :
    ext_loop data data_len sn f p =
      some (Outcome.null sn (skip_reads data p (examined_extensions es))
        [Diag.no_more_extensions 144]) ∧
    (Reaches data data_len sn p →
      Reaches data data_len sn (p + (encode_extensions (examined_extensions es)).length)) ∧
    ((p + (encode_extensions (examined_extensions es)).length : Nat) : Int) + 4 ≥ data_len := by
  induction es generalizing p with
  | nil =>
    simp only [encode_extensions, List.length_nil, Nat.add_zero, examined_extensions,
      skip_reads] at hlen ⊢
    exact ⟨ext_loop_end data data_len sn f p h1 (by omega), fun hr => hr, by omega⟩
  | cons e es ih =>
    rw [encode_extensions_length] at hlen
    by_cases hlast : e.payload = [] ∧ es = []
    · obtain ⟨he, rfl⟩ := hlast
      have hl0 : e.payload.length = 0 := by rw [he]; rfl
      simp only [encode_extensions, List.length_nil, Nat.add_zero] at hlen
      simp only [examined_extensions, he, if_true, skip_reads, encode_extensions,
        List.length_nil, Nat.add_zero]
      exact ⟨ext_loop_end data data_len sn f p h1 (by omega), fun hr => hr, by omega⟩
    · have hpos : 0 < e.payload.length + (encode_extensions es).length := by
        by_cases hes0 : es = []
        · have he : e.payload ≠ [] := fun he => hlast ⟨he, hes0⟩
          have := List.length_pos.mpr he
          omega
        · obtain ⟨e', es', rfl⟩ := List.exists_cons_of_ne_nil hes0
          rw [encode_extensions_length]
          omega
      have hlt : ¬ ((p : Int) + 4 ≥ data_len) := by rw [hlen]; push_cast; omega
      simp only [encode_extensions, Extension.encode, List.cons_append, stored_cons,
        stored_append, List.length_cons] at hst
      obtain ⟨t0, t1, l0, l1, -, hrest⟩ := hst
      obtain ⟨hfit, hns⟩ := hes e (List.mem_cons_self _ _)
      unfold Extension.fits at hfit
      have hl : ((data (p + 2)).val <<< 8) + (data (p + 3)).val = e.payload.length := by
        rw [show p + 2 = p + 1 + 1 by omega, show p + 3 = p + 1 + 1 + 1 by omega, l0, l1,
          byte_val, byte_val]
        omega
      have hty : ¬ (data p = 0x00 ∧ data (p + 1) = 0x00) := by rw [t0, t1]; exact hns
      obtain ⟨i1, i2, i3⟩ := ih (p + 4 + e.payload.length) (by push_cast; omega)
        (fun e' he' => hes e' (List.mem_cons_of_mem _ he'))
        (by
          rw [show p + 4 + e.payload.length = p + 1 + 1 + 1 + 1 + e.payload.length by omega]
          exact hrest)
        (by rw [hlen]; push_cast; omega)
      rw [examined_extensions_cons e es hlast, encode_extensions_length, skip_reads]
      refine ⟨?_, ?_, ?_⟩
      · rw [ext_loop_skip data data_len sn f p h1 h2 hlt hty, hl, i1, Option.map_some',
          after_null]
      · intro hr
        have hn := Reaches.next p hr hlt hty
        rw [hl] at hn
        have := i2 hn
        rw [show p + (4 + e.payload.length +
          (encode_extensions (examined_extensions es)).length) =
          p + 4 + e.payload.length + (encode_extensions (examined_extensions es)).length by
          omega]
        exact this
      · push_cast at i3 ⊢
        omega

/-! ## The claims -/

/-- C3. `parse_tls_header` and `parse_server_name_extension` terminate on every input: with
the fuel the embedding gives the loops (`data_len`, resp. `buf_len`) each call returns an
outcome.  The extension loop, entered at any cursor `p`, returns within `f` iterations as soon
as `4 * f ≥ data_len - p` and `f ≥ 1` (it stops once `p + 4 ≥ data_len` and otherwise moves
the cursor by `4 + len ≥ 4`); the name loop, entered at any cursor `p`, returns within `f`
iterations as soon as `f > buf_len - p` and `f ≥ 1` (it stops once `p ≥ buf_len` and
otherwise moves the cursor by 1); more fuel never changes an outcome. -/
theorem parse_tls_header_terminates (data : Nat → Byte) (len : Int) (sn : Nat → Byte) :
    (∃ o, parse_tls_header data len sn = some o) ∧
    (∃ o, parse_server_name_extension data len sn = some o) ∧
    (∀ f p : Nat, 1 ≤ f → len - p ≤ 4 * (f : Int) →
      ∃ o, ∀ k, ext_loop data len sn (f + k) p = some o) ∧
    (∀ f p : Nat, 1 ≤ f → len - p < (f : Int) →
      ∃ o, ∀ k, name_loop data len sn (f + k) p = some o) := by
  refine ⟨parse_tls_header_total data len sn, parse_server_name_extension_total data len sn,
    ?_, ?_⟩
  · intro f p h1 h2
    obtain ⟨o, ho⟩ := ext_loop_total data len sn f p h1 h2
    exact ⟨o, fun k => by rw [ext_loop_add _ _ _ _ _ _ h1 h2, ho]⟩
  · intro f p h1 h2
    obtain ⟨o, ho⟩ := name_loop_total data len sn f p h1 h2
    exact ⟨o, fun k => by rw [name_loop_add _ _ _ _ _ _ h1 h2, ho]⟩

set_option maxRecDepth 100000 in
/-- The witness of C3 on the "localhost" example: the call returns, the extension loop entered
at offset 51 returns with fuel 5 (and any more), the name loop entered at offset 2 of a
69-byte payload returns with fuel 68 (and any more). -/
theorem parse_tls_header_terminates_witness :
    (∃ o, parse_tls_header (ofBytes localhost_hello) 69 zeros = some o) ∧
    (∃ o, ∀ k, ext_loop (ofBytes localhost_hello) 69 zeros (5 + k) 51 = some o) ∧
    (∃ o, ∀ k, name_loop (ofBytes localhost_hello) 69 zeros (68 + k) 2 = some o) :=
  ⟨(parse_tls_header_terminates (ofBytes localhost_hello) 69 zeros).1,
    (parse_tls_header_terminates (ofBytes localhost_hello) 69 zeros).2.2.1 5 51
      (by decide) (by decide),
    (parse_tls_header_terminates (ofBytes localhost_hello) 69 zeros).2.2.2 68 2
      (by decide) (by decide)⟩

/-- C4. `parse_tls_header` returns a hostname (non-NULL) only if `data_len ≥ 5`,
`data[0] = 0x16`, the record version is at least 3.1, the declared record length
`data[3]*256 + data[4]` plus 5 is at most `data_len`, `data_len > 5` and `data[5] = 0x01`. -/
theorem parse_tls_header_nonnull_only_if (data : Nat → Byte) (data_len : Int)
    (sn : Nat → Byte) (o : Outcome) (h : parse_tls_header data data_len sn = some o)
    (hret : o.ret = true) :
    data_len ≥ 5 ∧ data 0 = 0x16 ∧
    ((data 1).val > 3 ∨ ((data 1).val = 3 ∧ (data 2).val ≥ 1)) ∧
    (((data 3).val * 256 + (data 4).val : Nat) : Int) + 5 ≤ data_len ∧
    data_len > 5 ∧ data 5 = 0x01 := by
  unfold parse_tls_header at h
  split at h
  · rename_i o' hw
    have := hello_walk_inl data data_len sn o' hw
    simp only [Option.some.injEq] at h
    subst h
    rw [this.1] at hret
    cases hret
  · rename_i p rd hw
    obtain ⟨h0, hv, hl, h5, hp, hpl, -⟩ := hello_walk_inr data data_len sn p rd hw
    exact ⟨by omega, h0, hv, hl, by omega, h5⟩

/-- The witness of C4: the "localhost" ClientHello of the specification yields a hostname and
passes every check. -/
theorem parse_tls_header_nonnull_only_if_witness :
    (69 : Int) ≥ 5 ∧ ofBytes localhost_hello 0 = 0x16 ∧
    ((ofBytes localhost_hello 1).val > 3 ∨
      ((ofBytes localhost_hello 1).val = 3 ∧ (ofBytes localhost_hello 2).val ≥ 1)) ∧
    (((ofBytes localhost_hello 3).val * 256 + (ofBytes localhost_hello 4).val : Nat) : Int) + 5
      ≤ 69 ∧
    (69 : Int) > 5 ∧ ofBytes localhost_hello 5 = 0x01 :=
  parse_tls_header_nonnull_only_if (ofBytes localhost_hello) 69 zeros
    ((parse_tls_header (ofBytes localhost_hello) 69 zeros).get (by decide))
    (Option.some_get _).symm (by decide)

/-- C5. For every buffer with `data_len < 5` (zero and negative lengths included),
`parse_tls_header` returns NULL and reads no byte of the buffer (nor writes the static
array, nor prints). -/
theorem parse_tls_header_short (data : Nat → Byte) (data_len : Int) (sn : Nat → Byte)
    (h : data_len < 5) :
    parse_tls_header data data_len sn =
      some { ret := false, server_name := sn, reads := [], writes := [], log := [] } := by
  unfold parse_tls_header hello_walk
  rw [if_pos (by simpa [TLS_HEADER_LEN] using h)]
  rfl

/-- The witness of C5: a four-byte buffer, and a negative length. -/
theorem parse_tls_header_short_witness :
    parse_tls_header (ofBytes [0x16, 0x03, 0x03, 0x00]) 4 zeros =
      some { ret := false, server_name := zeros, reads := [], writes := [], log := [] } ∧
    parse_tls_header (ofBytes localhost_hello) (-1) zeros =
      some { ret := false, server_name := zeros, reads := [], writes := [], log := [] } :=
  ⟨parse_tls_header_short _ 4 zeros (by decide), parse_tls_header_short _ (-1) zeros (by decide)⟩

/-- C1 (as amended). For every well-formed ClientHello buffer that contains a server_name
extension whose payload is a 2-byte list length followed by a single entry
`[0x00, 2-byte length L, L name bytes]` with `0 ≤ L ≤ 254`, and for every choice of the name
bytes none of which is `0x00`, `parse_tls_header` returns a string whose first `L` bytes are
exactly the name bytes and whose byte at index `L` is NUL.  Extensions of other types may
precede the server_name extension and any extensions may follow it. -/
theorem parse_tls_header_single_name (data : Nat → Byte) (data_len : Int) (sn : Nat → Byte)
    (h : Hello) (ext_hi ext_lo list_hi list_lo : Byte) (pre post : List Extension)
    (name : List Byte) (hwf : h.well_formed)
    (hpre : ∀ e ∈ pre, e.fits ∧ ¬ e.is_server_name)
    (hL : name.length ≤ 254) (hnz : ∀ b ∈ name, b ≠ 0)
    (hst : stored data 0 (client_hello h ext_hi ext_lo
      (pre ++ ⟨0x00, 0x00, server_name_payload list_hi list_lo name⟩ :: post)))
    (hlen : data_len = ((client_hello h ext_hi ext_lo
      (pre ++ ⟨0x00, 0x00, server_name_payload list_hi list_lo name⟩ :: post)).length : Int))
    (hdecl : (h.declared : Int) + 5 ≤ data_len) :
    ∃ o, parse_tls_header data data_len sn = some o ∧ o.ret = true ∧
      bytes o.server_name name.length = name ∧ o.server_name name.length = 0 := by
  simp only [client_hello, encode_extensions_append, encode_extensions, Extension.encode,
    server_name_payload, stored_append, stored_cons, List.length_append, List.length_cons,
    List.cons_append, Nat.zero_add] at hst hlen
  obtain ⟨hpfx, -, -, hpre_st, t0, t1, l0, l1, b0, b1, b2, b3, b4, hnm, -⟩ := hst
  have hr0 := reaches_first_extension data data_len sn h hwf hpfx hdecl
    (by rw [hlen]; push_cast; omega)
  have hr := reaches_extensions data data_len sn pre _ hr0 hpre hpre_st
    (by rw [hlen]; push_cast; omega)
  obtain ⟨h6, rd, heq⟩ := reaches_eq data data_len sn _ hr
  generalize hp : h.encode.length + 1 + 1 + (encode_extensions pre).length = p at *
  have hl : ((data (p + 2)).val <<< 8) + (data (p + 3)).val = 5 + name.length := by
    rw [show p + 2 = p + 1 + 1 by omega, show p + 3 = p + 1 + 1 + 1 by omega, l0, l1,
      byte_val, byte_val]
    omega
  have hpay' : stored (shift data (p + 4)) 0
      (list_hi :: list_lo :: ([] : List Byte) ++
        0x00 :: byte (name.length / 256) :: byte name.length :: name) := by
    rw [stored_shift, show p + 4 + 0 = p + 1 + 1 + 1 + 1 by omega]
    simp only [List.nil_append, List.cons_append, stored_cons]
    exact ⟨b0, b1, b2, b3, b4, hnm⟩
  obtain ⟨rd1, rd2, hsne⟩ := parse_server_name_extension_entry (shift data (p + 4))
    ((5 + name.length : Nat) : Int) sn list_hi list_lo [] name hpay' (by simp) (by omega)
    (by simp)
  rw [if_neg (by unfold SERVER_NAME_LEN; omega)] at hsne
  have hname : stored (shift data (p + 4)) 5 name := by
    simp only [List.nil_append, stored_cons, List.cons_append] at hpay'
    exact hpay'.2.2.2.2.2
  rw [List.length_nil, Nat.add_zero, strncpy_image_stored _ name 5 hname hnz] at hsne
  rw [ext_loop_server_name data data_len sn data_len.toNat p (by omega)
    (by rw [hlen]; push_cast; omega) ⟨t0, t1⟩, hl,
    if_neg (by rw [hlen]; push_cast; omega), hsne] at heq
  refine ⟨_, heq, rfl, ?_, ?_⟩
  · exact bytes_poke_store sn name 0
  · exact poke_self _ _ _

set_option maxRecDepth 100000 in
/-- The witness of C1: the "localhost" example of the specification (TLS 1.2 header, empty
session id, one cipher suite, no compression methods, one extension) yields "localhost". -/
theorem parse_tls_header_single_name_witness :
    (∃ o, parse_tls_header (ofBytes localhost_hello) 69 zeros = some o ∧ o.ret = true ∧
      bytes o.server_name 9 = [0x6c, 0x6f, 0x63, 0x61, 0x6c, 0x68, 0x6f, 0x73, 0x74] ∧
      o.server_name 9 = 0) ∧
    (parse_tls_header (ofBytes localhost_hello) 69 zeros).map
      (fun o => c_string o.server_name SERVER_NAME_LEN) =
      some [0x6c, 0x6f, 0x63, 0x61, 0x6c, 0x68, 0x6f, 0x73, 0x74] :=
  ⟨parse_tls_header_single_name (ofBytes localhost_hello) 69 zeros (example_hello 64)
      0x00 0x12 0x00 0x0c [] [] [0x6c, 0x6f, 0x63, 0x61, 0x6c, 0x68, 0x6f, 0x73, 0x74]
      (by decide) (by simp) (by decide) (by decide) (by decide) (by decide) (by decide),
    by decide⟩

set_option maxRecDepth 100000 in
/-- The counterexample to C1 as stated: `nul_name_hello` is a well-formed ClientHello whose
single host_name entry has the `L = 3` name bytes `61 00 62`; `parse_tls_header` returns a
string whose first three bytes are `61 00 00`, not the three name bytes. -/
theorem parse_tls_header_single_name_counterexample :
    nul_name_hello = client_hello (example_hello 58) 0x00 0x0c
      [⟨0x00, 0x00, server_name_payload 0x00 0x06 [0x61, 0x00, 0x62]⟩] ∧
    (example_hello 58).well_formed ∧ ((example_hello 58).declared : Int) + 5 ≤ 63 ∧
    nul_name_hello.length = 63 ∧
    (parse_tls_header (ofBytes nul_name_hello) 63 zeros).map
      (fun o => (o.ret, bytes o.server_name 3, o.server_name 3)) =
      some (true, [0x61, 0x00, 0x00], 0) ∧
    ¬ ∃ o, parse_tls_header (ofBytes nul_name_hello) 63 zeros = some o ∧ o.ret = true ∧
      bytes o.server_name 3 = [0x61, 0x00, 0x62] ∧ o.server_name 3 = 0 := by
  refine ⟨rfl, by decide, by decide, by decide, by decide, ?_⟩
  rintro ⟨o, ho, -, hb, -⟩
  have hev : (parse_tls_header (ofBytes nul_name_hello) 63 zeros).map
      (fun o => bytes o.server_name 3) = some [0x61, 0x00, 0x00] := by decide
  rw [ho, Option.map_some', Option.some.injEq, hb] at hev
  exact absurd hev (by decide)

set_option maxRecDepth 100000 in
/-- C2 (the code's behaviour at the failing input). On the 54-byte buffer
`short_server_name_hello`, whose server_name extension header at offsets 49..52 declares
length 1, `parse_tls_header` called with `data_len = 54` reads the byte at offset 54: the
decoder is entered with `buf_len = 1` and its check `p - buf + 1 > buf_len` lets the two-byte
read of `p[0]` and `p[1]` through. -/
theorem parse_tls_header_reads_past_end :
    short_server_name_hello.length = 54 ∧
    (parse_tls_header (ofBytes short_server_name_hello) 54 zeros).map
      (fun o => (o.ret, o.reads.filter (fun i => decide (54 ≤ i)))) = some (false, [54]) ∧
    (parse_server_name_extension (shift (ofBytes short_server_name_hello) 53) 1 zeros).map
      (fun o => o.reads) = some [0, 1] := by
  decide

set_option maxRecDepth 100000 in
/-- The counterexample to C6 as stated: `long_name_payload` is a 260-byte server_name payload
whose first entry is a host_name entry with declared length `L = 255 ≤ 255` that fits in the
payload; `parse_server_name_extension` returns NULL ("Server name is too long"), not the
255-byte name. -/
theorem parse_server_name_extension_limit_counterexample :
    long_name_payload = server_name_payload 0x01 0x02 (List.replicate 255 0x61) ∧
    (List.replicate 255 (0x61 : Byte)).length ≤ 255 ∧ long_name_payload.length = 260 ∧
    (parse_server_name_extension (ofBytes long_name_payload) 260 zeros).map
      (fun o => (o.ret, o.log)) = some (false, [Diag.name_too_long]) := by
  refine ⟨rfl, by decide, by decide, by decide⟩

/-- C6 (as amended). The hostname length limit is 254 bytes: for every server_name payload
whose first entry is a host_name entry (type 0x00) with declared length `L` that fits in the
payload of `buf_len` bytes, `parse_server_name_extension` returns a name when `L ≤ 254` (NUL
at index `L`, and the full `L`-byte name before it when no name byte is zero) and fails when
`L ≥ 255` (NULL with "Server name is too long", the static array untouched, never a truncated
name); a name is rejected as too long exactly when its length reaches
`SERVER_NAME_LEN - 1 = 255`. -/
theorem parse_server_name_extension_limit (buf : Nat → Byte) (buf_len : Int) (sn : Nat → Byte)
    (list_hi list_lo : Byte) (name : List Byte) (hL : name.length < 65536)
    (hst : stored buf 0 (server_name_payload list_hi list_lo name))
    (hfit : ((5 + name.length : Nat) : Int) ≤ buf_len) :
    ∃ o, parse_server_name_extension buf buf_len sn = some o ∧
      (o.ret = true ↔ name.length ≤ 254) ∧
      (name.length ≤ 254 → o.server_name name.length = 0 ∧
        ((∀ b ∈ name, b ≠ 0) → bytes o.server_name name.length = name)) ∧
      (255 ≤ name.length → o.ret = false ∧ o.server_name = sn ∧ o.writes = [] ∧
        o.log = [Diag.name_too_long]) := by
  have hst' : stored buf 0 (list_hi :: list_lo :: ([] : List Byte) ++
      0x00 :: byte (name.length / 256) :: byte name.length :: name) := hst
  obtain ⟨rd1, rd2, hsne⟩ := parse_server_name_extension_entry buf buf_len sn list_hi list_lo
    [] name hst' (by simp) hL (by simpa using hfit)
  by_cases hbig : name.length ≥ SERVER_NAME_LEN - 1
  · rw [if_pos hbig] at hsne
    unfold SERVER_NAME_LEN at hbig
    refine ⟨_, hsne, ?_, ?_, ?_⟩
    · simp only [Outcome.null]
      constructor
      · intro h; cases h
      · intro h; omega
    · intro h; omega
    · intro _; exact ⟨rfl, rfl, rfl, rfl⟩
  · rw [if_neg hbig] at hsne
    unfold SERVER_NAME_LEN at hbig
    refine ⟨_, hsne, ?_, ?_, ?_⟩
    · exact ⟨fun _ => by omega, fun _ => rfl⟩
    · intro _
      refine ⟨poke_self _ _ _, fun hnz => ?_⟩
      have hname : stored buf 5 name := by
        simp only [server_name_payload, stored_cons] at hst
        exact hst.2.2.2.2.2
      show bytes (poke (store sn (strncpy_image buf (5 + ([] : List Byte).length) name.length))
        name.length 0) name.length = name
      rw [List.length_nil, Nat.add_zero, strncpy_image_stored buf name 5 hname hnz]
      exact bytes_poke_store sn name 0
    · intro h; omega

set_option maxRecDepth 100000 in
/-- The witness of C6: the 254-byte name is returned, the 255-byte name is refused. -/
theorem parse_server_name_extension_limit_witness :
    (∃ o, parse_server_name_extension
        (ofBytes (server_name_payload 0x00 0xff (List.replicate 254 0x61))) 259 zeros = some o ∧
      (o.ret = true ↔ (List.replicate 254 (0x61 : Byte)).length ≤ 254) ∧
      ((List.replicate 254 (0x61 : Byte)).length ≤ 254 →
        o.server_name (List.replicate 254 (0x61 : Byte)).length = 0 ∧
        ((∀ b ∈ List.replicate 254 (0x61 : Byte), b ≠ 0) →
          bytes o.server_name (List.replicate 254 (0x61 : Byte)).length =
            List.replicate 254 (0x61 : Byte))) ∧
      (255 ≤ (List.replicate 254 (0x61 : Byte)).length → o.ret = false ∧ o.server_name = zeros ∧
        o.writes = [] ∧ o.log = [Diag.name_too_long])) ∧
    (parse_server_name_extension
        (ofBytes (server_name_payload 0x00 0xff (List.replicate 254 0x61))) 259 zeros).map
      (fun o => (o.ret, c_string o.server_name SERVER_NAME_LEN)) =
      some (true, List.replicate 254 0x61) :=
  ⟨parse_server_name_extension_limit _ 259 zeros 0x00 0xff (List.replicate 254 0x61)
    (by decide) (stored_ofBytes _) (by decide), by decide⟩

set_option maxRecDepth 100000 in
/-- C7 (the code's behaviour at two failing inputs). Both payloads consist of the 2-byte list
length, one length-prefixed entry of the unknown name type 0x01 and then a host_name entry.
On `unknown_body_payload` (unknown entry of length 257 whose body starts `00 00 04 "evil"`,
then the host_name entry for "good") `parse_server_name_extension` skips the type byte and
the two length bytes `01 01` one by one as three unknown name types, takes the first body
byte for a host_name type and returns "evil", a name from inside the unknown entry's body,
not "good".  On `unknown_entry_payload` (unknown entry `01 00 00` of length 0, then the
host_name entry for `61`) it takes the high length byte for a host_name type and returns the
empty string, not `61`.  The default branch of the switch (line 207) skips nothing: the loop
goes on one byte after the type byte, where the loop of `parse_tls_header` skips an
extension by its declared length (line 160). -/
theorem parse_server_name_extension_unknown_entry_not_skipped :
    unknown_body_payload =
      [0x01, 0x0b] ++
        ([0x01] ++ [byte (257 / 256), byte 257] ++
          ([0x00, 0x00, 0x04, 0x65, 0x76, 0x69, 0x6c] ++ List.replicate 250 0x2e)) ++
        ([0x00] ++ [byte (4 / 256), byte 4] ++ [0x67, 0x6f, 0x6f, 0x64]) ∧
    unknown_body_payload.length = 269 ∧
    (parse_server_name_extension (ofBytes unknown_body_payload) 269 zeros).map
      (fun o => (o.ret, c_string o.server_name SERVER_NAME_LEN, o.log)) =
      some (true, [0x65, 0x76, 0x69, 0x6c],
        [Diag.unknown_name_type, Diag.unknown_name_type, Diag.unknown_name_type]) ∧
    unknown_entry_payload =
      [0x00, 0x07] ++ ([0x01] ++ [byte (0 / 256), byte 0] ++ []) ++
        ([0x00] ++ [byte (1 / 256), byte 1] ++ [0x61]) ∧
    (parse_server_name_extension (ofBytes unknown_entry_payload) 9 zeros).map
      (fun o => (o.ret, c_string o.server_name SERVER_NAME_LEN, o.reads, o.log)) =
      some (true, [], [0, 1, 2, 3, 4, 5], [Diag.unknown_name_type]) := by
  refine ⟨by decide, by decide, by decide, by decide, by decide⟩

set_option maxRecDepth 100000 in
/-- The counterexample to C8 as stated: `empty_last_extension_hello` is a well-formed 60-byte
ClientHello whose extension list, ending exactly at `data_len`, holds an extension of type
0x0001 at offsets 51..55 and an extension of type 0x0002 with an empty payload at offsets
56..59.  `parse_tls_header` returns NULL, but the second extension is not skipped by its
declared length: none of its header bytes is read, and the loop ends at line 143 with the
cursor at 56, while a whole 4-byte header remains. -/
theorem parse_tls_header_no_server_name_counterexample :
    empty_last_extension_hello = client_hello (example_hello 55) 0x00 0x09
      [⟨0x00, 0x01, [0xaa]⟩, ⟨0x00, 0x02, []⟩] ∧
    (example_hello 55).well_formed ∧ ((example_hello 55).declared : Int) + 5 ≤ 60 ∧
    empty_last_extension_hello.length = 60 ∧
    (parse_tls_header (ofBytes empty_last_extension_hello) 60 zeros).map
      (fun o => (o.ret, o.log, o.reads)) =
      some (false, [Diag.no_more_extensions 144],
        [0, 1, 2, 3, 4, 5, 43, 44, 45, 48, 49, 50, 53, 54, 51, 52]) ∧
    ¬ ∃ o, parse_tls_header (ofBytes empty_last_extension_hello) 60 zeros = some o ∧
      ∃ i ∈ header_reads (ofBytes empty_last_extension_hello) 56, i ∈ o.reads := by
  refine ⟨rfl, by decide, by decide, by decide, by decide, ?_⟩
  rintro ⟨o, ho, i, hi, hio⟩
  have hev : (parse_tls_header (ofBytes empty_last_extension_hello) 60 zeros).map
      (fun o => o.reads) = some [0, 1, 2, 3, 4, 5, 43, 44, 45, 48, 49, 50, 53, 54, 51, 52] := by
    decide
  rw [ho, Option.map_some', Option.some.injEq] at hev
  rw [hev] at hio
  have hh : header_reads (ofBytes empty_last_extension_hello) 56 = [58, 59, 56, 57] := by
    decide
  rw [hh] at hi
  simp only [List.mem_cons, List.mem_singleton, List.not_mem_nil, or_false] at hi hio
  omega

/-- C8 (as amended). For every well-formed ClientHello buffer that passes the record and
handshake checks and whose extension list (any number of extensions, each a 2-byte type, a
2-byte length and a payload of exactly that length, ending exactly at `data_len`) contains no
extension of type 0x0000, `parse_tls_header` returns NULL through "No more TLS handshake
extensions", leaving the static array as it was: after the reads `rd` of the walk of lines
45-140 it examines every extension and skips it by its declared length, except a last
extension with an empty payload, which it does not examine, and the loop ends at the check of
line 143 with a cursor that leaves at most four bytes (`cursor + 4 ≥ data_len`). -/
theorem parse_tls_header_no_server_name (data : Nat → Byte) (data_len : Int)
    (sn : Nat → Byte) (h : Hello) (ext_hi ext_lo : Byte) (exts : List Extension)
    (hwf : h.well_formed) (hexts : ∀ e ∈ exts, e.fits ∧ ¬ e.is_server_name)
    (hst : stored data 0 (client_hello h ext_hi ext_lo exts))
    (hlen : data_len = ((client_hello h ext_hi ext_lo exts).length : Int))
    (hdecl : (h.declared : Int) + 5 ≤ data_len) :
    ∃ o rd, parse_tls_header data data_len sn = some o ∧ o.ret = false ∧ o.server_name = sn ∧
      o.writes = [] ∧ o.log = [Diag.no_more_extensions 144] ∧
      hello_walk data data_len sn = Sum.inr (h.encode.length + 2, rd) ∧
      o.reads = rd ++ skip_reads data (h.encode.length + 2) (examined_extensions exts) ∧
      Reaches data data_len sn
        (h.encode.length + 2 + (encode_extensions (examined_extensions exts)).length) ∧
      ((h.encode.length + 2 + (encode_extensions (examined_extensions exts)).length : Nat) :
        Int) + 4 ≥ data_len := by
  simp only [client_hello, stored_append, stored_cons, List.length_append, List.length_cons,
    Nat.zero_add] at hst hlen
  obtain ⟨hpfx, -, -, hes⟩ := hst
  obtain ⟨rd1, rd2, rd3, hw⟩ := hello_walk_stored data data_len sn h hwf hpfx hdecl
    (by rw [hlen]; push_cast; omega)
  rw [if_neg (by rw [hlen]; push_cast; omega), if_neg (by rw [hlen]; push_cast; omega)] at hw
  have hr0 : Reaches data data_len sn (h.encode.length + 1 + 1) := Reaches.first _ rd3 hw
  obtain ⟨hloop, hreach, hend⟩ := ext_loop_examined data data_len sn data_len.toNat exts
    (h.encode.length + 1 + 1) (by rw [hlen]; omega) (by rw [hlen]; omega) hexts hes
    (by rw [hlen]; push_cast; omega)
  refine ⟨Outcome.null sn
    (rd3 ++ skip_reads data (h.encode.length + 2) (examined_extensions exts))
    [Diag.no_more_extensions 144], rd3, ?_, rfl, rfl, rfl, rfl, hw, rfl, hreach hr0, hend⟩
  unfold parse_tls_header
  rw [hw]
  dsimp only
  rw [hloop, Option.map_some', after_null]

set_option maxRecDepth 100000 in
/-- The witness of C8: the example of the specification with the single extension of type
0x0001; its header, at offsets 51..54, is read and the extension is skipped. -/
theorem parse_tls_header_no_server_name_witness :
    (∃ o rd, parse_tls_header (ofBytes other_extension_hello) 69 zeros = some o ∧
      o.ret = false ∧ o.server_name = zeros ∧ o.writes = [] ∧
      o.log = [Diag.no_more_extensions 144] ∧
      hello_walk (ofBytes other_extension_hello) 69 zeros =
        Sum.inr ((example_hello 64).encode.length + 2, rd) ∧
      o.reads = rd ++ skip_reads (ofBytes other_extension_hello)
        ((example_hello 64).encode.length + 2)
        (examined_extensions [⟨0x00, 0x01, server_name_payload 0x00 0x0c
          [0x6c, 0x6f, 0x63, 0x61, 0x6c, 0x68, 0x6f, 0x73, 0x74]⟩]) ∧
      Reaches (ofBytes other_extension_hello) 69 zeros
        ((example_hello 64).encode.length + 2 + (encode_extensions (examined_extensions
          [⟨0x00, 0x01, server_name_payload 0x00 0x0c
            [0x6c, 0x6f, 0x63, 0x61, 0x6c, 0x68, 0x6f, 0x73, 0x74]⟩])).length) ∧
      (((example_hello 64).encode.length + 2 + (encode_extensions (examined_extensions
          [⟨0x00, 0x01, server_name_payload 0x00 0x0c
            [0x6c, 0x6f, 0x63, 0x61, 0x6c, 0x68, 0x6f, 0x73, 0x74]⟩])).length : Nat) : Int) + 4
        ≥ 69) ∧
    (parse_tls_header (ofBytes other_extension_hello) 69 zeros).map (fun o => o.reads) =
      some [0, 1, 2, 3, 4, 5, 43, 44, 45, 48, 49, 50, 53, 54, 51, 52] ∧
    skip_reads (ofBytes other_extension_hello) 51
      (examined_extensions [⟨0x00, 0x01, server_name_payload 0x00 0x0c
        [0x6c, 0x6f, 0x63, 0x61, 0x6c, 0x68, 0x6f, 0x73, 0x74]⟩]) = [53, 54, 51, 52] :=
  ⟨parse_tls_header_no_server_name (ofBytes other_extension_hello) 69 zeros (example_hello 64)
      0x00 0x12
      [⟨0x00, 0x01, server_name_payload 0x00 0x0c
        [0x6c, 0x6f, 0x63, 0x61, 0x6c, 0x68, 0x6f, 0x73, 0x74]⟩]
      (by decide) (by simp [Extension.fits, Extension.is_server_name, server_name_payload])
      (stored_ofBytes _) (by decide) (by decide),
    by decide, by decide⟩

/-- C9. For every ClientHello buffer that passes the record and handshake checks and ends
exactly after the compression-methods field, `parse_tls_header` returns NULL through the
"No extensions present" branch of line 128, leaving the static array as it was. -/
theorem parse_tls_header_no_extensions (data : Nat → Byte) (data_len : Int)
    (sn : Nat → Byte) (h : Hello) (hwf : h.well_formed) (hst : stored data 0 h.encode)
    (hlen : data_len = (h.encode.length : Int)) (hdecl : (h.declared : Int) + 5 ≤ data_len) :
    ∃ o, parse_tls_header data data_len sn = some o ∧ o.ret = false ∧ o.server_name = sn ∧
      o.writes = [] ∧ o.log = [Diag.no_extensions 128] := by
  obtain ⟨rd1, rd2, rd3, hw⟩ := hello_walk_stored data data_len sn h hwf hst hdecl
    (by omega)
  rw [if_pos (by omega)] at hw
  unfold parse_tls_header
  rw [hw]
  exact ⟨_, rfl, rfl, rfl, rfl, rfl⟩

set_option maxRecDepth 100000 in
/-- The witness of C9: the record prefix of the specification's example, with nothing after
the compression methods. -/
theorem parse_tls_header_no_extensions_witness :
    ∃ o, parse_tls_header (ofBytes (example_hello 44).encode) 49 zeros = some o ∧
      o.ret = false ∧ o.server_name = zeros ∧ o.writes = [] ∧
      o.log = [Diag.no_extensions 128] :=
  parse_tls_header_no_extensions (ofBytes (example_hello 44).encode) 49 zeros
    (example_hello 44) (by decide) (stored_ofBytes _) (by decide) (by decide)

/-- C10. For every buffer in which `parse_tls_header` arrives at an extension header of type
0x0000 whose declared 2-byte length exceeds the number of bytes remaining in the buffer after
that 4-byte header, the result is NULL and the server-name decoder is not entered: the
function returns at line 145 or at line 156, before the call of line 158, and nothing is
written. -/
theorem parse_tls_header_oversized_server_name (data : Nat → Byte) (data_len : Int)
    (sn : Nat → Byte) (p : Nat) (hr : Reaches data data_len sn p)
    (hty : data p = 0x00 ∧ data (p + 1) = 0x00)
    (hbig : (((data (p + 2)).val * 256 + (data (p + 3)).val : Nat) : Int) >
      data_len - ((p + 4 : Nat) : Int)) :
    ∃ o, parse_tls_header data data_len sn = some o ∧ o.ret = false ∧ o.server_name = sn ∧
      o.writes = [] ∧
      (o.log = [Diag.no_more_extensions 144] ∨ o.log = [Diag.incomplete_header 155]) := by
  obtain ⟨h6, rd, heq⟩ := reaches_eq data data_len sn p hr
  by_cases hlt : (p : Int) + 4 ≥ data_len
  · obtain ⟨f, hf⟩ : ∃ g, data_len.toNat = g + 1 := ⟨data_len.toNat - 1, by omega⟩
    rw [hf, ext_loop, if_pos hlt] at heq
    exact ⟨_, heq, rfl, rfl, rfl, Or.inl rfl⟩
  · rw [ext_loop_server_name data data_len sn data_len.toNat p (by omega) hlt hty,
      if_pos (by push_cast at hbig ⊢; omega)] at heq
    exact ⟨_, heq, rfl, rfl, rfl, Or.inr rfl⟩

set_option maxRecDepth 100000 in
/-- The witness of C10: the server_name extension header at offset 51 of a 65-byte buffer
declares length 20 while 10 bytes remain. -/
theorem parse_tls_header_oversized_server_name_witness :
    ∃ o, parse_tls_header (ofBytes oversized_extension_hello) 65 zeros = some o ∧
      o.ret = false ∧ o.server_name = zeros ∧ o.writes = [] ∧
      (o.log = [Diag.no_more_extensions 144] ∨ o.log = [Diag.incomplete_header 155]) :=
  parse_tls_header_oversized_server_name (ofBytes oversized_extension_hello) 65 zeros 51
    (Reaches.first 51 [0, 1, 2, 3, 4, 5, 43, 44, 45, 48, 49, 50]
      (Sum.getRight?_eq_some_iff.mp (by decide)))
    (by decide) (by decide)

/-- C11. The extensions-block length is advisory only: for any two buffers of the same length
that are identical except for the two bytes of the extensions-block length field (the two
bytes immediately after the compression methods), `parse_tls_header` has the same outcome
(the same return value, the same hostname in the static array, the same reads and the same
diagnostics). -/
theorem parse_tls_header_extensions_length_unused (d1 d2 : Nat → Byte) (data_len : Int)
    (sn : Nat → Byte)
    (hag : ∀ i : Nat, (i : Int) < data_len → i ≠ extensions_length_offset d1 →
      i ≠ extensions_length_offset d1 + 1 → d1 i = d2 i) :
    parse_tls_header d1 data_len sn = parse_tls_header d2 data_len sn := by
  have hq := extensions_length_offset_ge d1
  apply parse_tls_header_congr
  · apply hello_walk_congr
    · intro i h1 h2 _ _
      exact hag i h1 (by omega) (by omega)
    · intro h5
      unfold declared_length
      rw [hag 3 (by omega) (by omega) (by omega), hag 4 (by omega) (by omega) (by omega)]
  · intro i h1 h2
    exact hag i h2 (by omega) (by omega)

set_option maxRecDepth 100000 in
/-- The witness of C11: the "localhost" example, whose extensions length field is at offsets
49 and 50, and the same buffer with `ff ff` there. -/
theorem parse_tls_header_extensions_length_unused_witness :
    extensions_length_offset (ofBytes localhost_hello) = 49 ∧
    parse_tls_header (ofBytes localhost_hello) 69 zeros =
      parse_tls_header (poke (poke (ofBytes localhost_hello) 49 0xff) 50 0xff) 69 zeros ∧
    (parse_tls_header (poke (poke (ofBytes localhost_hello) 49 0xff) 50 0xff) 69 zeros).map
      (fun o => (o.ret, c_string o.server_name SERVER_NAME_LEN)) =
      some (true, [0x6c, 0x6f, 0x63, 0x61, 0x6c, 0x68, 0x6f, 0x73, 0x74]) :=
  ⟨by decide,
    parse_tls_header_extensions_length_unused (ofBytes localhost_hello)
      (poke (poke (ofBytes localhost_hello) 49 0xff) 50 0xff) 69 zeros
      (fun i _ h1 h2 => by
        have e : extensions_length_offset (ofBytes localhost_hello) = 49 := by decide
        rw [e] at h1 h2
        simp [poke, h1, h2]),
    by decide⟩

/-- C18. The result depends only on the bytes inside the buffer: for any two memory contents
that agree on `data[0 .. data_len-1]` (and may differ arbitrarily at every index
`≥ data_len`), `parse_tls_header` has the same outcome; a byte read at or beyond the end of the
buffer never influences whether a hostname is returned or what it is. -/
theorem parse_tls_header_inside_only (d1 d2 : Nat → Byte) (data_len : Int) (sn : Nat → Byte)
    (hag : ∀ i : Nat, (i : Int) < data_len → d1 i = d2 i) :
    parse_tls_header d1 data_len sn = parse_tls_header d2 data_len sn := by
  apply parse_tls_header_congr
  · apply hello_walk_congr
    · intro i h1 _ _ _
      exact hag i h1
    · intro h5
      unfold declared_length
      rw [hag 3 (by omega), hag 4 (by omega)]
  · intro i _ h2
    exact hag i h2

set_option maxRecDepth 100000 in
/-- The witness of C18: the 54-byte buffer on which the decoder reads offset 54, with the
byte `00` and with the byte `ff` at offset 54. -/
theorem parse_tls_header_inside_only_witness :
    parse_tls_header (ofBytes short_server_name_hello) 54 zeros =
      parse_tls_header (poke (ofBytes short_server_name_hello) 54 0xff) 54 zeros ∧
    (parse_tls_header (poke (ofBytes short_server_name_hello) 54 0xff) 54 zeros).map
      (fun o => (o.ret, o.reads.filter (fun i => decide (54 ≤ i)))) = some (false, [54]) :=
  ⟨parse_tls_header_inside_only (ofBytes short_server_name_hello)
      (poke (ofBytes short_server_name_hello) 54 0xff) 54 zeros
      (fun i hi => by
        have h : i ≠ 54 := by omega
        simp [poke, h]),
    by decide⟩

/-- C19. The declared record length is used only for the completeness check of line 68 and
never bounds the scan: for any two buffers of the same length that are identical except for
the record-length bytes (offsets 3 and 4), and whose declared lengths both satisfy
`declared + 5 ≤ data_len`, `parse_tls_header` has the same outcome. -/
theorem parse_tls_header_record_length_unused (d1 d2 : Nat → Byte) (data_len : Int)
    (sn : Nat → Byte)
    (hag : ∀ i : Nat, (i : Int) < data_len → i ≠ 3 → i ≠ 4 → d1 i = d2 i)
    (h1 : (declared_length d1 : Int) + 5 ≤ data_len)
    (h2 : (declared_length d2 : Int) + 5 ≤ data_len) :
    parse_tls_header d1 data_len sn = parse_tls_header d2 data_len sn := by
  have hq := extensions_length_offset_ge d1
  apply parse_tls_header_congr
  · apply hello_walk_congr
    · intro i hi _ h3 h4
      exact hag i hi h3 h4
    · intro _
      constructor <;> intro h <;> omega
  · intro i hi1 hi2
    exact hag i hi2 (by omega) (by omega)

set_option maxRecDepth 100000 in
/-- The witness of C19: the "localhost" example (declared record length 64) and the same
buffer declaring record length 0; the hostname is returned although the server_name extension,
at offsets 51..68, lies beyond the end of the declared record. -/
theorem parse_tls_header_record_length_unused_witness :
    parse_tls_header (ofBytes localhost_hello) 69 zeros =
      parse_tls_header (poke (poke (ofBytes localhost_hello) 3 0x00) 4 0x00) 69 zeros ∧
    declared_length (poke (poke (ofBytes localhost_hello) 3 0x00) 4 0x00) = 0 ∧
    (parse_tls_header (poke (poke (ofBytes localhost_hello) 3 0x00) 4 0x00) 69 zeros).map
      (fun o => (o.ret, c_string o.server_name SERVER_NAME_LEN)) =
      some (true, [0x6c, 0x6f, 0x63, 0x61, 0x6c, 0x68, 0x6f, 0x73, 0x74]) :=
  ⟨parse_tls_header_record_length_unused (ofBytes localhost_hello)
      (poke (poke (ofBytes localhost_hello) 3 0x00) 4 0x00) 69 zeros
      (fun i _ h3 h4 => by simp [poke, h3, h4]) (by decide) (by decide),
    by decide, by decide⟩

/-- C12. For every input, every write `parse_server_name_extension` makes to the 256-byte
static array `server_name` is at an index `i` with `0 ≤ i ≤ 254 < 256`: a NULL return has
written nothing, a non-NULL return has written the indices `0 .. n-1` (the copy) and then the
index `n` (the terminator) for some `n < 255`, and the array is unchanged at every index
above 254. -/
theorem parse_server_name_extension_writes (buf : Nat → Byte) (buf_len : Int)
    (sn : Nat → Byte) (o : Outcome) (h : parse_server_name_extension buf buf_len sn = some o) :
    (∀ i ∈ o.writes, 0 ≤ i ∧ i ≤ 254 ∧ 254 < SERVER_NAME_LEN) ∧
    (o.ret = false → o.writes = []) ∧
    (o.ret = true → ∃ n, n < 255 ∧ o.writes = List.range n ++ [n]) ∧
    (∀ i, 255 ≤ i → o.server_name i = sn i) := by
  obtain ⟨h1, h2, h3, h4⟩ := parse_server_name_extension_disciplined buf buf_len sn o h
  unfold SERVER_NAME_LEN at h2 h3 h4 ⊢
  exact ⟨fun i hi => ⟨Nat.zero_le i, h3 i hi, (by decide)⟩, fun hr => (h1 hr).2, h2, h4⟩

set_option maxRecDepth 100000 in
/-- The witness of C12: the payload of the "localhost" example; the writes are at the indices
0..8 (the copy) and 9 (the terminator). -/
theorem parse_server_name_extension_writes_witness :
    ∃ o, parse_server_name_extension (ofBytes (server_name_payload 0x00 0x0c
        [0x6c, 0x6f, 0x63, 0x61, 0x6c, 0x68, 0x6f, 0x73, 0x74])) 14 zeros = some o ∧
      o.writes = [0, 1, 2, 3, 4, 5, 6, 7, 8, 9] ∧
      ((∀ i ∈ o.writes, 0 ≤ i ∧ i ≤ 254 ∧ 254 < SERVER_NAME_LEN) ∧
       (o.ret = false → o.writes = []) ∧
       (o.ret = true → ∃ n, n < 255 ∧ o.writes = List.range n ++ [n]) ∧
       (∀ i, 255 ≤ i → o.server_name i = zeros i)) :=
  ⟨(parse_server_name_extension (ofBytes (server_name_payload 0x00 0x0c
        [0x6c, 0x6f, 0x63, 0x61, 0x6c, 0x68, 0x6f, 0x73, 0x74])) 14 zeros).get (by decide),
    (Option.some_get _).symm, by decide,
    parse_server_name_extension_writes _ 14 zeros _ (Option.some_get _).symm⟩

/-- C14. Every byte that `parse_tls_header` itself reads is at an index `< data_len`, for
every buffer and length: the call either returns NULL itself, having read the offsets `own`,
or returns what `parse_server_name_extension` returns for a payload inside the buffer, having
read the offsets `own` before that call; in both cases every offset in `own` is inside the
buffer. -/
theorem parse_tls_header_own_reads (data : Nat → Byte) (data_len : Int) (sn : Nat → Byte) :
    ∃ own : List Nat, (∀ i ∈ own, (i : Int) < data_len) ∧
      ((∃ lg, parse_tls_header data data_len sn = some (Outcome.null sn own lg)) ∨
       (∃ q n : Nat, ((q + n : Nat) : Int) ≤ data_len ∧
          parse_tls_header data data_len sn =
            (parse_server_name_extension (shift data q) (n : Int) sn).map
              (Outcome.after own [] q))) := by
  obtain ⟨o, ho⟩ := parse_tls_header_total data data_len sn
  unfold parse_tls_header at ho ⊢
  cases hc : hello_walk data data_len sn with
  | inl o' =>
    obtain ⟨h1, h2, h3, h4⟩ := hello_walk_inl data data_len sn o' hc
    refine ⟨o'.reads, h4, Or.inl ⟨o'.log, ?_⟩⟩
    dsimp only
    congr 1
    cases o'
    simp only [Outcome.null] at h1 h2 h3 ⊢
    subst h1 h2 h3
    rfl
  | inr x =>
    obtain ⟨p, rd⟩ := x
    rw [hc] at ho
    dsimp only at ho ⊢
    obtain ⟨-, -, -, -, -, -, hrd⟩ := hello_walk_inr data data_len sn p rd hc
    rcases ext_loop_own_reads data data_len sn data_len.toNat p with
      h0 | ⟨own, hown, ⟨lg, h1⟩ | ⟨q, n, hq, h2⟩⟩
    · rw [h0] at ho; cases ho
    · rw [h1]
      refine ⟨rd ++ own.map (0 + ·), ?_, Or.inl ⟨[] ++ lg, rfl⟩⟩
      intro i hi
      simp only [List.mem_append, List.mem_map, Nat.zero_add, exists_eq_right] at hi
      rcases hi with hi | hi
      · exact hrd i hi
      · exact hown i hi
    · rw [h2, Option.map_map]
      refine ⟨rd ++ own, ?_, Or.inr ⟨q, n, hq, ?_⟩⟩
      · intro i hi
        simp only [List.mem_append] at hi
        rcases hi with hi | hi
        · exact hrd i hi
        · exact hown i hi
      · congr 1
        funext o
        simp [after_after]

/-- C15. No partial result on failure: for every input on which `parse_tls_header` (or
`parse_server_name_extension`) returns NULL, the static array `server_name` is left exactly as
it was before the call and nothing was stored to it; the array is written only on the path
that returns a hostname. -/
theorem parse_null_leaves_server_name (data : Nat → Byte) (len : Int) (sn : Nat → Byte)
    (o : Outcome)
    (h : parse_tls_header data len sn = some o ∨
      parse_server_name_extension data len sn = some o)
    (hret : o.ret = false) : o.server_name = sn ∧ o.writes = [] := by
  rcases h with h | h
  · exact (parse_tls_header_disciplined data len sn o h).1 hret
  · exact (parse_server_name_extension_disciplined data len sn o h).1 hret

set_option maxRecDepth 100000 in
/-- The witness of C15: the example with extension type 0x0001, called while the static array
holds the string "ab" of an earlier call. -/
theorem parse_null_leaves_server_name_witness :
    ∃ o, parse_tls_header (ofBytes other_extension_hello) 69 (ofBytes [0x61, 0x62]) = some o ∧
      o.ret = false ∧ (o.server_name = ofBytes [0x61, 0x62] ∧ o.writes = []) :=
  ⟨(parse_tls_header (ofBytes other_extension_hello) 69 (ofBytes [0x61, 0x62])).get
      (by decide),
    (Option.some_get _).symm, by decide,
    parse_null_leaves_server_name (ofBytes other_extension_hello) 69 (ofBytes [0x61, 0x62]) _
      (Or.inl (Option.some_get _).symm) (by decide)⟩

/-- C13. The body walker and the extension iterator locate the server_name payload: for
every buffer that passes the record and handshake checks, with any session-id length
(0..255), any cipher-suite list length (0..65535), any compression-methods length (0..255)
and any number of leading extensions whose type is not 0x0000 (each with a payload of its
declared length), followed by an extension header of type 0x0000 with declared length
`n ≥ 1` that fits in the buffer, `parse_tls_header(data, data_len)` returns exactly what
`parse_server_name_extension(data + o, n)` returns, `o` being the offset of that
extension's payload (the reads of the call are the reads `rd` made on the way, followed by
those of the decoder). -/
theorem parse_tls_header_locates_payload (data : Nat → Byte) (data_len : Int)
    (sn : Nat → Byte) (h : Hello) (ext_hi ext_lo : Byte) (pre : List Extension) (n : Nat)
    (hwf : h.well_formed) (hpre : ∀ e ∈ pre, e.fits ∧ ¬ e.is_server_name)
    (hn1 : 1 ≤ n) (hn2 : n < 65536)
    (hst : stored data 0
      (client_hello h ext_hi ext_lo pre ++ [0x00, 0x00, byte (n / 256), byte n]))
    (hfit : (((client_hello h ext_hi ext_lo pre).length + 4 + n : Nat) : Int) ≤ data_len)
    (hdecl : (h.declared : Int) + 5 ≤ data_len) :
    ∃ rd, parse_tls_header data data_len sn =
      (parse_server_name_extension
        (shift data ((client_hello h ext_hi ext_lo pre).length + 4)) (n : Int) sn).map
        (Outcome.after rd [] ((client_hello h ext_hi ext_lo pre).length + 4)) := by
  simp only [client_hello, stored_append, stored_cons, List.length_append, List.length_cons,
    List.append_assoc, List.cons_append, Nat.zero_add] at hst hfit ⊢
  obtain ⟨hpfx, -, -, hpre_st, t0, t1, l0, l1, -⟩ := hst
  have hr0 := reaches_first_extension data data_len sn h hwf hpfx hdecl
    (by push_cast at hfit ⊢; omega)
  have hr := reaches_extensions data data_len sn pre _ hr0 hpre hpre_st
    (by push_cast at hfit ⊢; omega)
  obtain ⟨h6, rd, heq⟩ := reaches_eq data data_len sn _ hr
  rw [show h.encode.length + ((encode_extensions pre).length + 1 + 1) + 4 =
    h.encode.length + 1 + 1 + (encode_extensions pre).length + 4 by omega]
  generalize hp : h.encode.length + 1 + 1 + (encode_extensions pre).length = p at *
  have hl : ((data (p + 2)).val <<< 8) + (data (p + 3)).val = n := by
    rw [show p + 2 = p + 1 + 1 by omega, show p + 3 = p + 1 + 1 + 1 by omega, l0, l1,
      byte_val, byte_val]
    omega
  rw [ext_loop_server_name data data_len sn data_len.toNat p (by omega)
    (by push_cast at hfit ⊢; omega) ⟨t0, t1⟩, hl,
    if_neg (by push_cast at hfit ⊢; omega), Option.map_map] at heq
  refine ⟨rd ++ header_reads data p, ?_⟩
  rw [heq]
  congr 1
  funext o
  simp [after_after]

set_option maxRecDepth 100000 in
/-- The witness of C13: in the "localhost" example the payload of the server_name extension
is at offset 55 and has length 14. -/
theorem parse_tls_header_locates_payload_witness :
    ∃ rd, parse_tls_header (ofBytes localhost_hello) 69 zeros =
      (parse_server_name_extension
        (shift (ofBytes localhost_hello) ((client_hello (example_hello 64) 0x00 0x12 []).length + 4))
        ((14 : Nat) : Int) zeros).map
        (Outcome.after rd [] ((client_hello (example_hello 64) 0x00 0x12 []).length + 4)) :=
  parse_tls_header_locates_payload (ofBytes localhost_hello) 69 zeros (example_hello 64)
    0x00 0x12 [] 14 (by decide) (by simp) (by decide) (by decide) (by decide) (by decide)
    (by decide)

/-- C16. Once the first extension of type 0x0000 is reached, it alone decides the result:
for any two buffers of the same length that agree on every byte of the buffer up to and
including the last payload byte of the first server_name extension (as delimited by its
declared length), `parse_tls_header` has the same outcome. -/
theorem parse_tls_header_first_server_name_decides (d1 d2 : Nat → Byte) (data_len : Int)
    (sn : Nat → Byte) (p : Nat) (hr : Reaches d1 data_len sn p)
    (hty : d1 p = 0x00 ∧ d1 (p + 1) = 0x00)
    (hag : ∀ i : Nat, i < p + 4 + (((d1 (p + 2)).val <<< 8) + (d1 (p + 3)).val) →
      (i : Int) < data_len → d1 i = d2 i) :
    parse_tls_header d1 data_len sn = parse_tls_header d2 data_len sn := by
  obtain ⟨h6, rd, e1, e2⟩ := reaches_eq_congr d1 d2 data_len sn p hr
    (fun i h1 h2 => hag i (by omega) h2)
  rw [e1, e2]
  congr 1
  by_cases hp : (p : Int) + 4 ≥ data_len
  · rw [ext_loop_end d1 data_len sn _ p (by omega) hp,
      ext_loop_end d2 data_len sn _ p (by omega) hp]
  have a0 := hag p (by omega) (by omega)
  have a1 := hag (p + 1) (by omega) (by push_cast; omega)
  have a2 := hag (p + 2) (by omega) (by push_cast; omega)
  have a3 := hag (p + 3) (by omega) (by push_cast; omega)
  have eh : header_reads d1 p = header_reads d2 p := by
    unfold header_reads
    rw [a0]
  rw [ext_loop_server_name d1 data_len sn _ p (by omega) hp hty,
    ext_loop_server_name d2 data_len sn _ p (by omega) hp (by rw [← a0, ← a1]; exact hty),
    ← a2, ← a3, ← eh]
  by_cases hfit : ((p + 4 : Nat) : Int) +
      ((((d1 (p + 2)).val <<< 8) + (d1 (p + 3)).val : Nat) : Int) > data_len
  · rw [if_pos hfit, if_pos hfit]
  · rw [if_neg hfit, if_neg hfit,
      parse_server_name_extension_congr (shift d1 (p + 4)) (shift d2 (p + 4)) _ sn
        (fun i hi => hag (p + 4 + i) (by push_cast at hi; omega)
          (by push_cast at hfit hi ⊢; omega))]

set_option maxRecDepth 100000 in
/-- The witness of C16: in `two_server_names_hello` the first extension of type 0x0000, at
offset 51 with 5 payload bytes, fails to decode, and the result is NULL although the second
one carries "localhost"; changing a byte of that second extension changes nothing. -/
theorem parse_tls_header_first_server_name_decides_witness :
    parse_tls_header (ofBytes two_server_names_hello) 78 zeros =
      parse_tls_header (poke (ofBytes two_server_names_hello) 77 0x73) 78 zeros ∧
    (parse_tls_header (ofBytes two_server_names_hello) 78 zeros).map
      (fun o => (o.ret, o.log)) =
      some (false, [Diag.unknown_name_type, Diag.unknown_name_type, Diag.unknown_name_type,
        Diag.incomplete_server_name 183]) :=
  ⟨parse_tls_header_first_server_name_decides (ofBytes two_server_names_hello)
      (poke (ofBytes two_server_names_hello) 77 0x73) 78 zeros 51
      (Reaches.first 51 [0, 1, 2, 3, 4, 5, 43, 44, 45, 48, 49, 50]
        (Sum.getRight?_eq_some_iff.mp (by decide)))
      (by decide)
      (fun i hi _ => by
        have e : ((ofBytes two_server_names_hello (51 + 2)).val <<< 8) +
            (ofBytes two_server_names_hello (51 + 3)).val = 5 := by decide
        rw [e] at hi
        have h : i ≠ 77 := by omega
        simp [poke, h]),
    by decide⟩

end Sniproxy
